import Mathlib

/-!
# helm-config-generator: the tree walker, the resource classifier and the chart emitter

A shallow embedding of `main.go`.

* A decoded JSON document (`map[string]interface{}` / `[]interface{}` / scalars) is the
  inductive type `Value`; a Go map is an association list whose order is the order in
  which `range` visits the entries on the run under consideration.
* The decoded document is a tree (no sharing), so the in-place updates of the source
  (`obj[k] = ...`, and the updates made through the aliases `valueMap`, `sliceMap`,
  `kubeObjectMap`) are rendered by returning the updated tree.
* File-system effects are recorded as the list of events a function emits.
* A failed unchecked type assertion is the outcome `panicked`.
-/

namespace ConfigGenerator

/-! ## Data model -/

/-- What `encoding/json` decodes into an `interface{}`: `nil`, `bool`, `float64`, `string`,
`[]interface{}` and `map[string]interface{}`.  The payload of a number is never inspected by
the program; it is carried as an integer. -/
inductive Value where
  | null
  | bool (b : Bool)
  | num (n : Int)
  | str (s : String)
  | seq (xs : List Value)
  | map (kvs : List (String × Value))

/-- Go `map[string]interface{}`. -/
abbrev Mapping := List (String × Value)

/-- Go `m[k]` with the comma-ok form: the value stored under `k`, if any. -/
def mapGet (m : Mapping) (k : String) : Option Value :=
  match m with
  | [] => none
  | (k', v) :: rest => if k' = k then some v else mapGet rest k

/-- Go `m[k] = v`: overwrite the entry of `k`, or add one. -/
def mapSet (m : Mapping) (k : String) (v : Value) : Mapping :=
  match m with
  | [] => [(k, v)]
  | (k', v') :: rest => if k' = k then (k, v) :: rest else (k', v') :: mapSet rest k v

/-- The keys of a map, in visiting order. -/
def mapKeys (m : Mapping) : List String := m.map Prod.fst

/-! ## Tree walker (`generatePlaceholders`, main.go 136-157) -/

mutual
/-- `generatePlaceholders(obj, responseObj, extraKey, typeKey)`: the `range` loop over the
entries of `obj`.  Returns the updated `obj` and the updated `responseObj`. -/
def generatePlaceholders (obj : Mapping) (responseObj : Mapping)
    (extraKey typeKey : String) : Mapping × Mapping :=
  match obj with
  | [] => ([], responseObj)
  | (k, v) :: rest =>
    let r := walkValue v k responseObj extraKey typeKey
    let r2 := generatePlaceholders rest r.2 extraKey typeKey
    ((k, r.1) :: r2.1, r2.2)
termination_by structural obj
/-- The body of the loop for the entry `(k, v)` (main.go 138-153): what `obj[k]` holds
afterwards, and the updated `responseObj`. -/
def walkValue (v : Value) (k : String) (responseObj : Mapping)
    (extraKey typeKey : String) : Value × Mapping :=
  match v with
  | .map valueMap =>
    let r := generatePlaceholders valueMap responseObj (extraKey ++ k ++ ".") typeKey
    (.map r.1, r.2)
  | .seq valueSlice =>
    let r := walkSlice valueSlice responseObj (extraKey ++ k ++ ".") typeKey
    (.seq r.1, r.2)
  | _ =>
    let p := "\x7b\x7b.Values." ++ typeKey ++ "." ++ extraKey ++ k ++ "\x7d\x7d"
    (.str p, mapSet responseObj k (.str p))
termination_by structural v
/-- The inner loop over a slice (main.go 144-149); `extraKey` is already `extraKey+k+"."`. -/
def walkSlice (valueSlice : List Value) (responseObj : Mapping)
    (extraKey typeKey : String) : List Value × Mapping :=
  match valueSlice with
  | [] => ([], responseObj)
  | s :: rest =>
    match s with
    | .map sliceMap =>
      let r := generatePlaceholders sliceMap responseObj extraKey typeKey
      let r2 := walkSlice rest r.2 extraKey typeKey
      (.map r.1 :: r2.1, r2.2)
    | _ =>
      let r2 := walkSlice rest responseObj extraKey typeKey
      (s :: r2.1, r2.2)
termination_by structural valueSlice
end

/-! ## `strings.EqualFold` (Go standard library) -/

/-- Go `unicode.SimpleFold` on the code points the program can pass to it.  `EqualFold` calls
it on the smaller of two runes, one of which comes from an ASCII constant, so the argument is
ASCII or reached from an ASCII letter: `K k U+212A` and `S s U+017F` are the two orbits of
ASCII letters with a third member. -/
def SimpleFold (r : Nat) : Nat :=
  if r = 75 then 107
  else if r = 107 then 0x212A
  else if r = 0x212A then 75
  else if r = 83 then 115
  else if r = 115 then 0x17F
  else if r = 0x17F then 83
  else if 65 ≤ r ∧ r ≤ 90 then r + 32
  else if 97 ≤ r ∧ r ≤ 122 then r - 32
  else r

/-- The loop `for r != sr && r < tr { r = unicode.SimpleFold(r) }` of `EqualFold`, with a
bound on the number of turns; `simpleFoldLoop_fuel` shows that the bound used by
`equalFoldRune` is never what ends it. -/
def simpleFoldLoop (fuel : Nat) (r sr tr : Nat) : Nat :=
  match fuel with
  | 0 => r
  | n + 1 => if r ≠ sr ∧ r < tr then simpleFoldLoop n (SimpleFold r) sr tr else r

/-- One step of `EqualFold`: do the runes `sr` and `tr` match? -/
def equalFoldRune (sr tr : Nat) : Bool :=
  if tr = sr then true
  else
    let lo := if tr < sr then tr else sr
    let hi := if tr < sr then sr else tr
    if hi < 0x80 then
      decide (65 ≤ lo ∧ lo ≤ 90 ∧ hi = lo + 32)
    else
      decide (simpleFoldLoop 4 (SimpleFold lo) lo hi = hi)

/-- Rune-by-rune comparison of two rune sequences. -/
def equalFoldRunes (s t : List Nat) : Bool :=
  match s, t with
  | [], [] => true
  | [], _ :: _ => false
  | _ :: _, [] => false
  | sr :: s', tr :: t' => equalFoldRune sr tr && equalFoldRunes s' t'

/-- Go `strings.EqualFold(s, t)` on valid UTF-8 strings, one of which is ASCII (in every call
of the program `t` is one of the three ASCII constants). -/
def EqualFold (s t : String) : Bool :=
  equalFoldRunes (s.data.map Char.toNat) (t.data.map Char.toNat)

/-! ## Resource classifier and chart emitter -/

def deploymentName : String := "deployment"
def serviceName : String := "service"
def ingressName : String := "ingress"
def baseHelmFolder : String := "helm"
def templatesFolder : String := "templates"
def templatesFolderPath : String := baseHelmFolder ++ "/" ++ templatesFolder

/-- Modelled from the spec: the declaration of `models.KubeComponent` is not part of the
sources at hand; its fields are those set by the composite literals of main.go 84-110. -/
structure KubeComponent where
  KubeComponentType : String
  APIVersion : String
  Kind : String
  KubeObjectValue : Value
  KubeObjectKey : String

/-- The `if / else if` chain of `configureHelmChart` (main.go 83-112): the component built for
a top-level entry, if any. -/
def classify (key : String) (value : Value) : Option KubeComponent :=
  if EqualFold key deploymentName then
    some ⟨"deployment", "apps/v1", "Deployment", value, key⟩
  else if EqualFold key serviceName then
    some ⟨"service", "v1", "Service", value, key⟩
  else if EqualFold key ingressName then
    some ⟨"ingress", "networking.k8s.io/v1", "Ingress", value, key⟩
  else none

/-- A file-system effect; `write path doc` writes `yaml.Marshal(doc)` to the file. -/
inductive FsEvent where
  | mkdirAll (path : String)
  | create (path : String)
  | write (path : String) (doc : Mapping)

/-- How a call ends: it returns, or it panics. -/
inductive Outcome (α : Type) where
  | returned (a : α)
  | panicked

/-- File of a component: `templatesFolderPath + "/" + KubeComponentType + ".yaml"`. -/
def manifestPath (componentType : String) : String :=
  templatesFolderPath ++ "/" ++ componentType ++ ".yaml"

/-- `generateHelmChart(kubeObj, responseMap)` (main.go 116-134).  Returns the events, and on
normal return the updated resource map (the manifest: it is the resource map itself, updated
in place) and the updated `responseMap`. -/
def generateHelmChart (kubeObj : KubeComponent) (responseMap : Mapping) :
    List FsEvent × Outcome (Mapping × Mapping) :=
  let yamlFile := manifestPath kubeObj.KubeComponentType
  match kubeObj.KubeObjectValue with
  | .map kubeObjectMap =>
    let r := generatePlaceholders kubeObjectMap responseMap "" kubeObj.KubeObjectKey
    let generatedKubeObject :=
      mapSet (mapSet r.1 "apiVersion" (.str kubeObj.APIVersion)) "kind" (.str kubeObj.Kind)
    ([.create yamlFile, .write yamlFile generatedKubeObject],
      .returned (generatedKubeObject, r.2))
  | _ => ([.create yamlFile], .panicked)

/-- The `range configs` loop of `configureHelmChart` (main.go 81-113). -/
def configureEntries (entries : Mapping) (responseMap : Mapping) :
    List FsEvent × Outcome (Mapping × Mapping) :=
  match entries with
  | [] => ([], .returned ([], responseMap))
  | (key, value) :: rest =>
    match classify key value with
    | none =>
      match configureEntries rest responseMap with
      | (ev, .returned (es, acc)) => (ev, .returned ((key, value) :: es, acc))
      | (ev, .panicked) => (ev, .panicked)
    | some kubeObj =>
      match generateHelmChart kubeObj responseMap with
      | (ev, .panicked) => (ev, .panicked)
      | (ev, .returned (g, acc)) =>
        match configureEntries rest acc with
        | (ev', .returned (es, acc')) => (ev ++ ev', .returned ((key, .map g) :: es, acc'))
        | (ev', .panicked) => (ev ++ ev', .panicked)

/-- `configureHelmChart(configs)` (main.go 70-114): the events and, on normal return, what
`configs` holds afterwards. -/
def configureHelmChart (configs : Mapping) : List FsEvent × Outcome Mapping :=
  match configureEntries configs [] with
  | (ev, .returned (es, _)) => (.mkdirAll templatesFolderPath :: ev, .returned es)
  | (ev, .panicked) => (.mkdirAll templatesFolderPath :: ev, .panicked)

/-- `generateValuesYamlFile(configs)` (main.go 48-68). -/
def generateValuesYamlFile (configs : Mapping) : List FsEvent :=
  [.mkdirAll baseHelmFolder, .create (baseHelmFolder ++ "/values.yaml"),
    .write (baseHelmFolder ++ "/values.yaml") configs]

/-- How the handler ends: `c.JSON(status, body)` returned a nil error, the handler returned
a non-nil error to its caller, or it panicked. -/
inductive HandlerResult where
  | responded (status : Nat) (body : Mapping)
  | failed (err : String)
  | panicked

/-- `GenerateConfigs` (main.go 30-46), from the decoded `configs` on. -/
def GenerateConfigs (configs : Mapping) : List FsEvent × HandlerResult :=
  let ev1 := generateValuesYamlFile configs
  match configureHelmChart configs with
  | (ev2, .returned configs') => (ev1 ++ ev2, .responded 200 configs')
  | (ev2, .panicked) => (ev1 ++ ev2, .panicked)

/-! ## Reading a tree -/

/-- A leaf of the walk: a value that is neither a map nor a slice. -/
def Value.isLeaf (v : Value) : Bool :=
  match v with
  | .map _ => false
  | .seq _ => false
  | _ => true

/-- The value reached from `v` by following the key chain `ks` through maps only. -/
def valueAt (v : Value) (ks : List String) : Option Value :=
  match ks with
  | [] => some v
  | k :: ks' =>
    match v with
    | .map m =>
      match mapGet m k with
      | some v' => valueAt v' ks'
      | none => none
    | _ => none

/-- What the inner loop leaves in place of the slice element `e` (main.go 145-148), with
the accumulator taken empty. -/
def sliceElem (extraKey typeKey : String) (e : Value) : Value :=
  match e with
  | .map m => .map (generatePlaceholders m [] extraKey typeKey).1
  | _ => e

/-! ## Reading the emitted events -/

/-- The documents written to the file `path`, in order. -/
def writtenDocs (path : String) (evs : List FsEvent) : List Mapping :=
  evs.filterMap (fun e =>
    match e with
    | .write p doc => if p = path then some doc else none
    | _ => none)

/-- The files created or written to, in order. -/
def emittedDestinations (evs : List FsEvent) : List String :=
  evs.filterMap (fun e =>
    match e with
    | .create p => some p
    | .write p _ => some p
    | .mkdirAll _ => none)

/-- The manifest of the component `kubeObj` for the resource map `m`: the walk of `m` under
the component key, then `apiVersion` and `kind` set (main.go 124-126), with the accumulator
taken empty. -/
def emittedManifest (kubeObj : KubeComponent) (m : Mapping) : Mapping :=
  mapSet (mapSet (generatePlaceholders m [] "" kubeObj.KubeObjectKey).1
    "apiVersion" (.str kubeObj.APIVersion)) "kind" (.str kubeObj.Kind)

/-- What a top-level entry holds after a completed `configureHelmChart`. -/
def templatedEntry (e : String × Value) : String × Value :=
  match classify e.1 e.2, e.2 with
  | some kubeObj, .map m => (e.1, .map (emittedManifest kubeObj m))
  | _, _ => e

/-- The events of a top-level entry in a completed `configureHelmChart`. -/
def entryEvents (e : String × Value) : List FsEvent :=
  match classify e.1 e.2, e.2 with
  | some kubeObj, .map m =>
    [.create (manifestPath kubeObj.KubeComponentType),
      .write (manifestPath kubeObj.KubeComponentType) (emittedManifest kubeObj m)]
  | _, _ => []

/-- Every recognized top-level key holds a map. -/
def resourcesAreMaps (configs : Mapping) : Prop :=
  ∀ key v kubeObj, (key, v) ∈ configs → classify key v = some kubeObj → ∃ m, v = .map m

/-! ## Equality ignoring case, as the specification words it -/

/-- Unicode simple case folding of a code point, on the code points whose folding is an ASCII
letter: `A`-`Z`, KELVIN SIGN `U+212A` and LATIN SMALL LETTER LONG S `U+017F`.  Every other code
point folds to a code point that is not an ASCII letter, and stands here for its own
folding. -/
def caseFold (r : Nat) : Nat :=
  if 65 ≤ r ∧ r ≤ 90 then r + 32
  else if r = 0x212A then 107
  else if r = 0x17F then 115
  else r

/-- The strings `s` and `t` are equal ignoring case: code point by code point they have the
same case folding. -/
def equalsIgnoringCase (s t : String) : Prop :=
  (s.data.map Char.toNat).map caseFold = (t.data.map Char.toNat).map caseFold

instance (s t : String) : Decidable (equalsIgnoringCase s t) :=
  inferInstanceAs (Decidable (_ = _))

/-! ## Shape of a walked tree -/

mutual
/-- The map `b` has the shape of the walked map `a`: the same keys in the same positions,
each value in the relation `sameShapeHeld`. -/
def sameShapeMap (a b : Mapping) : Prop :=
  match a with
  | [] => b = []
  | (k, v) :: a' => ∃ v' b', b = (k, v') :: b' ∧ sameShapeHeld v v' ∧ sameShapeMap a' b'
termination_by structural a
/-- The value `w` has the shape of the walked value `v` held by a map: a map stays a map of the
same shape, a slice stays a slice of the same shape, a leaf becomes a string. -/
def sameShapeHeld (v w : Value) : Prop :=
  match v with
  | .map m => ∃ m', w = .map m' ∧ sameShapeMap m m'
  | .seq xs => ∃ ys, w = .seq ys ∧ sameShapeSlice xs ys
  | _ => ∃ s, w = .str s
termination_by structural v
/-- The slice `ys` has the shape of the walked slice `xs`: the same length, a map element stays
a map of the same shape, any other element is the same value. -/
def sameShapeSlice (xs ys : List Value) : Prop :=
  match xs with
  | [] => ys = []
  | x :: xs' =>
    ∃ y ys', ys = y :: ys' ∧ sameShapeSlice xs' ys' ∧
      match x with
      | .map m => ∃ m', y = .map m' ∧ sameShapeMap m m'
      | _ => y = x
termination_by structural xs
end

/-! ## The same map under another visiting order -/

/-- Go `delete(m, k)`: the map without the entry of `k`. -/
def mapErase (m : Mapping) (k : String) : Mapping :=
  match m with
  | [] => []
  | (k', v) :: rest => if k' = k then rest else (k', v) :: mapErase rest k

mutual
/-- The association lists `a` and `b` hold the same Go map, whatever the order of their
entries: every entry of `a` has its key in `b` with the same value, and the remaining entries
hold the same map. -/
def sameMap (a b : Mapping) : Prop :=
  match a with
  | [] => b = []
  | (k, v) :: a' => ∃ w, mapGet b k = some w ∧ sameValue v w ∧ sameMap a' (mapErase b k)
termination_by structural a
/-- The values `v` and `w` are the same tree up to the order of the entries of their maps. -/
def sameValue (v w : Value) : Prop :=
  match v with
  | .map m => ∃ m', w = .map m' ∧ sameMap m m'
  | .seq xs => ∃ ys, w = .seq ys ∧ sameSlice xs ys
  | _ => w = v
termination_by structural v
/-- The slices `xs` and `ys` have the same length and hold the same values position by
position. -/
def sameSlice (xs ys : List Value) : Prop :=
  match xs with
  | [] => ys = []
  | x :: xs' => ∃ y ys', ys = y :: ys' ∧ sameValue x y ∧ sameSlice xs' ys'
termination_by structural xs
end

/-! ## The content of a destination -/

/-- The document held by the file `path` after the events `evs`, from the content `st`:
`os.Create` truncates the file, and the write that follows fills it; `none` is a file that is
absent or empty. -/
def fileAfter (path : String) (st : Option Mapping) (evs : List FsEvent) : Option Mapping :=
  match evs with
  | [] => st
  | .mkdirAll _ :: rest => fileAfter path st rest
  | .create p :: rest => fileAfter path (if p = path then none else st) rest
  | .write p doc :: rest => fileAfter path (if p = path then some doc else st) rest

/-- The manifest a top-level entry leaves in the file `path` in a completed run, if it writes
to that file. -/
def entryDoc (path : String) (e : String × Value) : Option Mapping :=
  match classify e.1 e.2, e.2 with
  | some kubeObj, .map m =>
    if manifestPath kubeObj.KubeComponentType = path then some (emittedManifest kubeObj m)
    else none
  | _, _ => none

/-- The content of the file `path` after a top-level entry has been processed. -/
def fileStep (path : String) (st : Option Mapping) (e : String × Value) : Option Mapping :=
  match entryDoc path e with
  | some d => some d
  | none => st

/-! ## Reading a placeholder back -/

/-- The characters of `cs` after the leading `pre`, if `cs` starts with `pre`. -/
def dropLeading (pre cs : List Char) : Option (List Char) :=
  match pre, cs with
  | [], cs => some cs
  | _ :: _, [] => none
  | a :: pre', c :: cs' => if a = c then dropLeading pre' cs' else none

/-- The characters of `cs` before the trailing `suf`, if `cs` ends with `suf`. -/
def dropTrailing (suf cs : List Char) : Option (List Char) :=
  (dropLeading suf.reverse cs.reverse).map List.reverse

/-- The pieces of `cs` between the dots. -/
def splitOnDot (cs : List Char) : List (List Char) :=
  match cs with
  | [] => [[]]
  | c :: cs' =>
    if c = '.' then [] :: splitOnDot cs'
    else
      match splitOnDot cs' with
      | [] => [[c]]
      | w :: ws => (c :: w) :: ws

/-- The key path named by a placeholder: the text between the opening and the closing of the
placeholder, split on the dots. -/
def placeholderKeyPath (s : String) : Option (List String) :=
  match dropLeading "\x7b\x7b.Values.".data s.data with
  | none => none
  | some rest =>
    match dropTrailing "\x7d\x7d".data rest with
    | none => none
    | some mid => some ((splitOnDot mid).map String.mk)

/-! ## The leaves the walk visits -/

mutual
/-- The leaves held by the maps that the walk of `obj` goes through (maps held by maps, and
map elements of slices held by maps), in visiting order, each with its key name. -/
def visitedLeaves (obj : Mapping) : List (String × Value) :=
  match obj with
  | [] => []
  | (k, v) :: rest => heldLeaves v k ++ visitedLeaves rest
termination_by structural obj
/-- The visited leaves under the value `v` held under the key `k`. -/
def heldLeaves (v : Value) (k : String) : List (String × Value) :=
  match v with
  | .map m => visitedLeaves m
  | .seq xs => sliceLeaves xs
  | _ => [(k, v)]
termination_by structural v
/-- The visited leaves under the map elements of a slice. -/
def sliceLeaves (xs : List Value) : List (String × Value) :=
  match xs with
  | [] => []
  | x :: rest =>
    (match x with
      | .map m => visitedLeaves m
      | _ => []) ++ sliceLeaves rest
termination_by structural xs
end

/-- The value of the last entry named `k` in a list of named values. -/
def lastHeld (k : String) (l : List (String × Value)) : Option Value :=
  match l with
  | [] => none
  | (k', v) :: rest =>
    match lastHeld k rest with
    | some w => some w
    | none => if k' = k then some v else none

/-- Writing a named value into the accumulator: `responseObj[k] = v`. -/
def recordLeaf (acc : Mapping) (e : String × Value) : Mapping := mapSet acc e.1 e.2

/-! ## Lemmas on the walker -/

mutual
theorem generatePlaceholders_fst_acc (obj : Mapping) (a b : Mapping) (p t : String) :
    (generatePlaceholders obj a p t).1 = (generatePlaceholders obj b p t).1 :=
  match obj with
  | [] => by simp [generatePlaceholders]
  | (k, v) :: rest => by
    simp only [generatePlaceholders]
    rw [walkValue_fst_acc v k a b p t,
      generatePlaceholders_fst_acc rest _ (walkValue v k b p t).2 p t]
termination_by structural obj
theorem walkValue_fst_acc (v : Value) (k : String) (a b : Mapping) (p t : String) :
    (walkValue v k a p t).1 = (walkValue v k b p t).1 :=
  match v with
  | .map m => by
    simp only [walkValue]
    rw [generatePlaceholders_fst_acc m a b]
  | .seq xs => by
    simp only [walkValue]
    rw [walkSlice_fst_acc xs a b]
  | .null => by simp [walkValue]
  | .bool _ => by simp [walkValue]
  | .num _ => by simp [walkValue]
  | .str _ => by simp [walkValue]
termination_by structural v
theorem walkSlice_fst_acc (xs : List Value) (a b : Mapping) (p t : String) :
    (walkSlice xs a p t).1 = (walkSlice xs b p t).1 :=
  match xs with
  | [] => by simp [walkSlice]
  | .map m :: rest => by
    simp only [walkSlice]
    rw [generatePlaceholders_fst_acc m a b,
      walkSlice_fst_acc rest _ (generatePlaceholders m b p t).2]
  | .seq _ :: rest => by
    simp only [walkSlice]
    rw [walkSlice_fst_acc rest a b]
  | .null :: rest => by
    simp only [walkSlice]
    rw [walkSlice_fst_acc rest a b]
  | .bool _ :: rest => by
    simp only [walkSlice]
    rw [walkSlice_fst_acc rest a b]
  | .num _ :: rest => by
    simp only [walkSlice]
    rw [walkSlice_fst_acc rest a b]
  | .str _ :: rest => by
    simp only [walkSlice]
    rw [walkSlice_fst_acc rest a b]
termination_by structural xs
end

theorem mapGet_generatePlaceholders (obj acc : Mapping) (p t k : String) :
    mapGet (generatePlaceholders obj acc p t).1 k
      = (mapGet obj k).map (fun v => (walkValue v k [] p t).1) := by
  induction obj generalizing acc with
  | nil => simp [generatePlaceholders, mapGet]
  | cons e rest ih =>
    obtain ⟨k', v⟩ := e
    simp only [generatePlaceholders, mapGet]
    by_cases h : k' = k
    · subst h
      simp [walkValue_fst_acc v k' acc [] p t]
    · simp [h, ih]

theorem walkSlice_fst (xs : List Value) (acc : Mapping) (p t : String) :
    (walkSlice xs acc p t).1 = xs.map (sliceElem p t) := by
  induction xs generalizing acc with
  | nil => simp [walkSlice]
  | cons e rest ih =>
    cases e <;> simp [walkSlice, sliceElem, ih]
    exact generatePlaceholders_fst_acc _ _ _ _ _

theorem intercalate_go_append (x acc s : String) (l : List String) :
    String.intercalate.go (x ++ acc) s l = x ++ String.intercalate.go acc s l := by
  induction l generalizing acc with
  | nil => simp [String.intercalate.go]
  | cons a l ih =>
    simp only [String.intercalate.go]
    rw [← ih]
    simp [String.append_assoc]

theorem intercalate_cons_cons (s a b : String) (l : List String) :
    String.intercalate s (a :: b :: l) = a ++ s ++ String.intercalate s (b :: l) := by
  simp only [String.intercalate, String.intercalate.go]
  rw [← intercalate_go_append]

theorem valueAt_leaf_walk (ks : List String) (obj acc : Mapping) (p rk : String) (v : Value)
    (h : valueAt (.map obj) ks = some v) (hl : v.isLeaf = true) :
    valueAt (.map (generatePlaceholders obj acc p rk).1) ks
      = some (.str ("\x7b\x7b.Values." ++ rk ++ "." ++ p ++ String.intercalate "." ks ++ "\x7d\x7d")) := by
  induction ks generalizing obj acc p with
  | nil =>
    simp [valueAt] at h
    subst h
    simp [Value.isLeaf] at hl
  | cons k ks' ih =>
    simp only [valueAt] at h ⊢
    rw [mapGet_generatePlaceholders]
    cases hg : mapGet obj k with
    | none => simp [hg] at h
    | some v1 =>
      simp only [hg, Option.map_some'] at h ⊢
      cases ks' with
      | nil =>
        simp only [valueAt, Option.some.injEq] at h ⊢
        subst h
        cases v1 <;> simp [Value.isLeaf] at hl <;>
          simp [walkValue, String.intercalate, String.intercalate.go, String.append_assoc]
      | cons k2 ks2 =>
        cases v1 with
        | map m =>
          have := ih m [] (p ++ k ++ ".") h
          simp only [walkValue]
          rw [this, intercalate_cons_cons]
          simp [String.append_assoc]
        | _ => simp [valueAt] at h

theorem mapGet_seq_walk (obj acc : Mapping) (p rk k : String) (xs : List Value)
    (h : mapGet obj k = some (.seq xs)) :
    mapGet (generatePlaceholders obj acc p rk).1 k
      = some (.seq (xs.map (sliceElem (p ++ k ++ ".") rk))) := by
  rw [mapGet_generatePlaceholders, h]
  simp [walkValue, walkSlice_fst]

/-! ## The walker: placeholders, sequences -/

/-- C1: a leaf reached from the root through maps only by the key chain `ks` is replaced by
the placeholder built from the resource key and the dotted key chain; the example of the
specification evaluates as stated. -/
theorem C1_leaf_replaced_by_dotted_placeholder :
    (∀ (obj acc : Mapping) (rk : String) (ks : List String) (v : Value),
      valueAt (.map obj) ks = some v → v.isLeaf = true →
      valueAt (.map (generatePlaceholders obj acc "" rk).1) ks
        = some (.str ("\x7b\x7b.Values." ++ rk ++ "." ++ String.intercalate "." ks ++ "\x7d\x7d")))
    ∧ (∀ acc : Mapping,
      (generatePlaceholders [("a", .map [("b", .num 1), ("c", .num 2)])] acc "" "deployment").1
        = [("a", .map [("b", .str "\x7b\x7b.Values.deployment.a.b\x7d\x7d"),
                       ("c", .str "\x7b\x7b.Values.deployment.a.c\x7d\x7d")])]) := by
  refine ⟨?_, ?_⟩
  · intro obj acc rk ks v h hl
    have := valueAt_leaf_walk ks obj acc "" rk v h hl
    simpa using this
  · intro acc
    rw [generatePlaceholders_fst_acc _ acc []]
    rfl

theorem C1_leaf_replaced_by_dotted_placeholder_witness :
    valueAt (.map [("spec", .map [("replicas", .num 3)]), ("tags", .seq [.str "x"])])
        ["spec", "replicas"] = some (.num 3)
    ∧ valueAt (.map (generatePlaceholders
          [("spec", .map [("replicas", .num 3)]), ("tags", .seq [.str "x"])] [] "" "service").1)
        ["spec", "replicas"]
        = some (.str ("\x7b\x7b.Values." ++ "service" ++ "."
            ++ String.intercalate "." ["spec", "replicas"] ++ "\x7d\x7d")) :=
  ⟨rfl, C1_leaf_replaced_by_dotted_placeholder.1 _ [] "service" ["spec", "replicas"] (.num 3)
    rfl rfl⟩

/-- C2: every map element of a slice stored under `k` is walked with the path `p + k + "."`,
whatever its index, so a leaf at the same key chain in two elements gets the same placeholder;
the example of the specification evaluates as stated. -/
theorem C2_slice_elements_share_parent_path :
    (∀ (obj acc : Mapping) (p rk k : String) (xs : List Value),
      mapGet obj k = some (.seq xs) →
      ∃ ys, mapGet (generatePlaceholders obj acc p rk).1 k = some (.seq ys)
        ∧ ys.length = xs.length
        ∧ (∀ (i : Nat) (m acc' : Mapping), xs[i]? = some (.map m) →
            ys[i]? = some (.map (generatePlaceholders m acc' (p ++ k ++ ".") rk).1))
        ∧ (∀ (i : Nat) (m : Mapping) (ks : List String) (v : Value),
            xs[i]? = some (.map m) → valueAt (.map m) ks = some v → v.isLeaf = true →
            ∃ e, ys[i]? = some e ∧ valueAt e ks
              = some (.str ("\x7b\x7b.Values." ++ rk ++ "." ++ (p ++ k ++ ".")
                  ++ String.intercalate "." ks ++ "\x7d\x7d"))))
    ∧ (∀ acc : Mapping,
      (generatePlaceholders
          [("containers", .seq [.map [("name", .str "x")], .map [("name", .str "y")]])]
          acc "" "deployment").1
        = [("containers", .seq
            [.map [("name", .str "\x7b\x7b.Values.deployment.containers.name\x7d\x7d")],
             .map [("name", .str "\x7b\x7b.Values.deployment.containers.name\x7d\x7d")]])]) := by
  refine ⟨?_, ?_⟩
  · intro obj acc p rk k xs h
    refine ⟨xs.map (sliceElem (p ++ k ++ ".") rk), mapGet_seq_walk obj acc p rk k xs h,
      by simp, ?_, ?_⟩
    · intro i m acc' hi
      rw [List.getElem?_map, hi]
      simp [sliceElem, generatePlaceholders_fst_acc m acc' []]
    · intro i m ks v hi hv hl
      refine ⟨.map (generatePlaceholders m [] (p ++ k ++ ".") rk).1, ?_, ?_⟩
      · rw [List.getElem?_map, hi]
        simp [sliceElem]
      · exact valueAt_leaf_walk ks m [] (p ++ k ++ ".") rk v hv hl
  · intro acc
    rw [generatePlaceholders_fst_acc _ acc []]
    rfl

theorem C2_slice_elements_share_parent_path_witness :
    mapGet [("ports", .seq [.num 1, .map [("port", .num 80)]])] "ports"
        = some (.seq [.num 1, .map [("port", .num 80)]])
    ∧ ∃ ys, mapGet (generatePlaceholders
          [("ports", .seq [.num 1, .map [("port", .num 80)]])] [] "spec." "service").1 "ports"
          = some (.seq ys)
        ∧ ys.length = [Value.num 1, .map [("port", .num 80)]].length
        ∧ (∀ (i : Nat) (m acc' : Mapping),
            [Value.num 1, .map [("port", .num 80)]][i]? = some (.map m) →
            ys[i]? = some (.map (generatePlaceholders m acc' ("spec." ++ "ports" ++ ".")
              "service").1))
        ∧ (∀ (i : Nat) (m : Mapping) (ks : List String) (v : Value),
            [Value.num 1, .map [("port", .num 80)]][i]? = some (.map m) →
            valueAt (.map m) ks = some v → v.isLeaf = true →
            ∃ e, ys[i]? = some e ∧ valueAt e ks
              = some (.str ("\x7b\x7b.Values." ++ "service" ++ "." ++ ("spec." ++ "ports" ++ ".")
                  ++ String.intercalate "." ks ++ "\x7d\x7d"))) :=
  ⟨rfl, C2_slice_elements_share_parent_path.1 _ [] "spec." "service" "ports" _ rfl⟩

/-- C3: an element of a slice that is not a map (a scalar, null, or a nested slice, even one
holding maps) is in the result what it was in the input. -/
theorem C3_non_map_slice_elements_untouched :
    (∀ (obj acc : Mapping) (p rk k : String) (xs : List Value),
      mapGet obj k = some (.seq xs) →
      ∃ ys, mapGet (generatePlaceholders obj acc p rk).1 k = some (.seq ys)
        ∧ ys.length = xs.length
        ∧ (∀ (i : Nat) (e : Value), xs[i]? = some e → (∀ m, e ≠ .map m) → ys[i]? = some e))
    ∧ (∀ acc : Mapping,
      (generatePlaceholders
          [("args", .seq [.str "run", .null, .num 7, .bool true,
              .seq [.map [("name", .str "x")], .str "y"]])] acc "" "deployment").1
        = [("args", .seq [.str "run", .null, .num 7, .bool true,
              .seq [.map [("name", .str "x")], .str "y"]])]) := by
  refine ⟨?_, ?_⟩
  · intro obj acc p rk k xs h
    refine ⟨xs.map (sliceElem (p ++ k ++ ".") rk), mapGet_seq_walk obj acc p rk k xs h,
      by simp, ?_⟩
    intro i e hi hne
    rw [List.getElem?_map, hi]
    cases e with
    | map m => exact absurd rfl (hne m)
    | _ => simp [sliceElem]
  · intro acc
    rw [generatePlaceholders_fst_acc _ acc []]
    rfl

theorem C3_non_map_slice_elements_untouched_witness :
    mapGet [("args", .seq [.seq [.map [("name", .str "x")]], .str "y"])] "args"
        = some (.seq [.seq [.map [("name", .str "x")]], .str "y"])
    ∧ ∃ ys, mapGet (generatePlaceholders
          [("args", .seq [.seq [.map [("name", .str "x")]], .str "y"])] [] "" "ingress").1 "args"
          = some (.seq ys)
        ∧ ys.length = [Value.seq [.map [("name", .str "x")]], .str "y"].length
        ∧ (∀ (i : Nat) (e : Value),
            [Value.seq [.map [("name", .str "x")]], .str "y"][i]? = some e →
            (∀ m, e ≠ .map m) → ys[i]? = some e) :=
  ⟨rfl, C3_non_map_slice_elements_untouched.1 _ [] "" "ingress" "args" _ rfl⟩

/-! ## Lemmas on the emitter -/

theorem classify_some (key : String) (value : Value) (kubeObj : KubeComponent)
    (h : classify key value = some kubeObj) :
    kubeObj.KubeObjectValue = value ∧ kubeObj.KubeObjectKey = key
    ∧ ((kubeObj.KubeComponentType = "deployment" ∧ kubeObj.APIVersion = "apps/v1"
          ∧ kubeObj.Kind = "Deployment" ∧ EqualFold key deploymentName = true)
      ∨ (kubeObj.KubeComponentType = "service" ∧ kubeObj.APIVersion = "v1"
          ∧ kubeObj.Kind = "Service" ∧ EqualFold key serviceName = true)
      ∨ (kubeObj.KubeComponentType = "ingress" ∧ kubeObj.APIVersion = "networking.k8s.io/v1"
          ∧ kubeObj.Kind = "Ingress" ∧ EqualFold key ingressName = true)) := by
  unfold classify at h
  split_ifs at h with h1 h2 h3 <;> simp at h <;> subst h <;> simp [*]

theorem generateHelmChart_map (kubeObj : KubeComponent) (acc m : Mapping)
    (h : kubeObj.KubeObjectValue = .map m) :
    generateHelmChart kubeObj acc
      = ([.create (manifestPath kubeObj.KubeComponentType),
          .write (manifestPath kubeObj.KubeComponentType) (emittedManifest kubeObj m)],
        .returned (emittedManifest kubeObj m,
          (generatePlaceholders m acc "" kubeObj.KubeObjectKey).2)) := by
  simp only [generateHelmChart, h, emittedManifest]
  rw [generatePlaceholders_fst_acc m acc []]

theorem generateHelmChart_not_map (kubeObj : KubeComponent) (acc : Mapping)
    (h : ∀ m, kubeObj.KubeObjectValue ≠ .map m) :
    generateHelmChart kubeObj acc
      = ([.create (manifestPath kubeObj.KubeComponentType)], .panicked) := by
  unfold generateHelmChart
  cases hv : kubeObj.KubeObjectValue with
  | map m => exact absurd hv (h m)
  | _ => rfl

theorem configureEntries_nil (acc : Mapping) :
    configureEntries [] acc = ([], .returned ([], acc)) := by
  simp [configureEntries]

theorem configureEntries_skip (key : String) (value : Value) (rest acc : Mapping)
    (h : classify key value = none) :
    configureEntries ((key, value) :: rest) acc
      = match configureEntries rest acc with
        | (ev, .returned (es, acc')) => (ev, .returned ((key, value) :: es, acc'))
        | (ev, .panicked) => (ev, .panicked) := by
  simp only [configureEntries, h]

theorem configureEntries_map (key : String) (m : Mapping) (rest acc : Mapping)
    (kubeObj : KubeComponent) (h : classify key (.map m) = some kubeObj) :
    configureEntries ((key, .map m) :: rest) acc
      = match configureEntries rest (generatePlaceholders m acc "" key).2 with
        | (ev, .returned (es, acc')) =>
          ([.create (manifestPath kubeObj.KubeComponentType),
            .write (manifestPath kubeObj.KubeComponentType) (emittedManifest kubeObj m)] ++ ev,
            .returned ((key, .map (emittedManifest kubeObj m)) :: es, acc'))
        | (ev, .panicked) =>
          ([.create (manifestPath kubeObj.KubeComponentType),
            .write (manifestPath kubeObj.KubeComponentType) (emittedManifest kubeObj m)] ++ ev,
            .panicked) := by
  have hc := classify_some key (.map m) kubeObj h
  simp only [configureEntries, h, generateHelmChart_map kubeObj acc m hc.1, hc.2.1]

theorem configureEntries_panic (key : String) (value : Value) (rest acc : Mapping)
    (kubeObj : KubeComponent) (h : classify key value = some kubeObj)
    (hv : ∀ m, value ≠ .map m) :
    configureEntries ((key, value) :: rest) acc
      = ([.create (manifestPath kubeObj.KubeComponentType)], .panicked) := by
  have hc := classify_some key value kubeObj h
  have hv' : ∀ m, kubeObj.KubeObjectValue ≠ .map m := by
    rw [hc.1]
    exact hv
  simp only [configureEntries, h, generateHelmChart_not_map kubeObj acc hv']

theorem configureEntries_completed (es acc : Mapping) (h : resourcesAreMaps es) :
    ∃ acc', configureEntries es acc = (es.flatMap entryEvents, .returned (es.map templatedEntry, acc')) := by
  induction es generalizing acc with
  | nil => exact ⟨acc, by simp [configureEntries]⟩
  | cons e rest ih =>
    obtain ⟨key, value⟩ := e
    have hrest : resourcesAreMaps rest := fun k v ko hm hc => h k v ko (List.mem_cons_of_mem _ hm) hc
    cases hc : classify key value with
    | none =>
      obtain ⟨acc', h'⟩ := ih acc hrest
      refine ⟨acc', ?_⟩
      rw [configureEntries_skip key value rest acc hc, h']
      simp [entryEvents, templatedEntry, hc]
    | some kubeObj =>
      obtain ⟨m, hm⟩ := h key value kubeObj (List.mem_cons_self _ _) hc
      subst hm
      obtain ⟨acc', h'⟩ := ih (generatePlaceholders m acc "" key).2 hrest
      refine ⟨acc', ?_⟩
      rw [configureEntries_map key m rest acc kubeObj hc, h']
      simp [entryEvents, templatedEntry, hc]

theorem configureEntries_aborted (es acc : Mapping)
    (h : ∃ key v kubeObj, (key, v) ∈ es ∧ classify key v = some kubeObj ∧ ∀ m, v ≠ .map m) :
    (configureEntries es acc).2 = .panicked := by
  induction es generalizing acc with
  | nil =>
    obtain ⟨key, v, kubeObj, hm, _⟩ := h
    simp at hm
  | cons e rest ih =>
    obtain ⟨key, value⟩ := e
    obtain ⟨k0, v0, ko0, hm, hc0, hv0⟩ := h
    cases hc : classify key value with
    | none =>
      have hrest : ∃ key v kubeObj, (key, v) ∈ rest ∧ classify key v = some kubeObj
          ∧ ∀ m, v ≠ .map m := by
        rcases List.mem_cons.1 hm with heq | hin
        · simp only [Prod.mk.injEq] at heq
          obtain ⟨rfl, rfl⟩ := heq
          rw [hc] at hc0
          simp at hc0
        · exact ⟨k0, v0, ko0, hin, hc0, hv0⟩
      have := ih acc hrest
      rw [configureEntries_skip key value rest acc hc]
      rcases hx : configureEntries rest acc with ⟨ev, (⟨es', acc'⟩ | _)⟩
      · rw [hx] at this
        simp at this
      · rfl
    | some kubeObj =>
      by_cases hv : ∃ m, value = .map m
      · obtain ⟨m, rfl⟩ := hv
        have hrest : ∃ key v kubeObj, (key, v) ∈ rest ∧ classify key v = some kubeObj
            ∧ ∀ m, v ≠ .map m := by
          rcases List.mem_cons.1 hm with heq | hin
          · simp only [Prod.mk.injEq] at heq
            obtain ⟨rfl, rfl⟩ := heq
            exact absurd rfl (hv0 m)
          · exact ⟨k0, v0, ko0, hin, hc0, hv0⟩
        have := ih (generatePlaceholders m acc "" key).2 hrest
        rw [configureEntries_map key m rest acc kubeObj hc]
        rcases hx : configureEntries rest (generatePlaceholders m acc "" key).2
          with ⟨ev, (⟨es', acc'⟩ | _)⟩
        · rw [hx] at this
          simp at this
        · rfl
      · have hv' : ∀ m, value ≠ .map m := fun m hm' => hv ⟨m, hm'⟩
        rw [configureEntries_panic key value rest acc kubeObj hc hv']

theorem configureEntries_events (es acc : Mapping) (e : FsEvent)
    (he : e ∈ (configureEntries es acc).1) :
    ∃ key v kubeObj, (key, v) ∈ es ∧ classify key v = some kubeObj
      ∧ (e = .create (manifestPath kubeObj.KubeComponentType)
        ∨ ∃ doc, e = .write (manifestPath kubeObj.KubeComponentType) doc) := by
  induction es generalizing acc with
  | nil => simp [configureEntries] at he
  | cons e0 rest ih =>
    obtain ⟨key, value⟩ := e0
    cases hc : classify key value with
    | none =>
      rw [configureEntries_skip key value rest acc hc] at he
      have he' : e ∈ (configureEntries rest acc).1 := by
        rcases hx : configureEntries rest acc with ⟨ev, (⟨es', acc'⟩ | _)⟩ <;>
          rw [hx] at he <;> exact he
      obtain ⟨k, v, ko, hm, h1, h2⟩ := ih acc he'
      exact ⟨k, v, ko, List.mem_cons_of_mem _ hm, h1, h2⟩
    | some kubeObj =>
      by_cases hv : ∃ m, value = .map m
      · obtain ⟨m, rfl⟩ := hv
        rw [configureEntries_map key m rest acc kubeObj hc] at he
        have he' : e ∈ [FsEvent.create (manifestPath kubeObj.KubeComponentType),
              .write (manifestPath kubeObj.KubeComponentType) (emittedManifest kubeObj m)]
            ∨ e ∈ (configureEntries rest (generatePlaceholders m acc "" key).2).1 := by
          rcases hx : configureEntries rest (generatePlaceholders m acc "" key).2
            with ⟨ev, (⟨es', acc'⟩ | _)⟩ <;>
            rw [hx] at he <;> exact List.mem_append.1 he
        rcases he' with hh | ht
        · refine ⟨key, .map m, kubeObj, List.mem_cons_self _ _, hc, ?_⟩
          simp only [List.mem_cons, List.mem_singleton, List.not_mem_nil, or_false] at hh
          rcases hh with rfl | rfl
          · exact Or.inl rfl
          · exact Or.inr ⟨_, rfl⟩
        · obtain ⟨k, v, ko, hm, h1, h2⟩ := ih _ ht
          exact ⟨k, v, ko, List.mem_cons_of_mem _ hm, h1, h2⟩
      · have hv' : ∀ m, value ≠ .map m := fun m hm' => hv ⟨m, hm'⟩
        rw [configureEntries_panic key value rest acc kubeObj hc hv'] at he
        simp only [List.mem_singleton] at he
        exact ⟨key, value, kubeObj, List.mem_cons_self _ _, hc, Or.inl he⟩

theorem manifestPath_of_classify (key : String) (v : Value) (kubeObj : KubeComponent)
    (h : classify key v = some kubeObj) :
    manifestPath kubeObj.KubeComponentType = "helm/templates/deployment.yaml"
    ∨ manifestPath kubeObj.KubeComponentType = "helm/templates/service.yaml"
    ∨ manifestPath kubeObj.KubeComponentType = "helm/templates/ingress.yaml" := by
  rcases (classify_some key v kubeObj h).2.2 with h1 | h1 | h1
  · rw [h1.1]; exact Or.inl (by decide)
  · rw [h1.1]; exact Or.inr (Or.inl (by decide))
  · rw [h1.1]; exact Or.inr (Or.inr (by decide))

theorem configureHelmChart_events (configs : Mapping) :
    (configureHelmChart configs).1
      = .mkdirAll templatesFolderPath :: (configureEntries configs []).1 := by
  unfold configureHelmChart
  rcases configureEntries configs [] with ⟨ev, (⟨es', acc'⟩ | _)⟩ <;> rfl

theorem writtenDocs_values_configureHelmChart (configs : Mapping) :
    writtenDocs "helm/values.yaml" (configureHelmChart configs).1 = [] := by
  rw [configureHelmChart_events]
  unfold writtenDocs
  rw [List.filterMap_eq_nil_iff]
  intro e he
  rcases List.mem_cons.1 he with rfl | he
  · rfl
  · obtain ⟨key, v, kubeObj, _, hc, h | ⟨doc, h⟩⟩ := configureEntries_events configs [] e he
    · subst h; rfl
    · subst h
      rcases manifestPath_of_classify key v kubeObj hc with hp | hp | hp <;>
        simp only [hp] <;> exact if_neg (by decide)

theorem GenerateConfigs_events (configs : Mapping) :
    (GenerateConfigs configs).1
      = generateValuesYamlFile configs ++ (configureHelmChart configs).1 := by
  unfold GenerateConfigs
  rcases configureHelmChart configs with ⟨ev, (es' | _)⟩ <;> rfl

theorem GenerateConfigs_completed (configs : Mapping) (h : resourcesAreMaps configs) :
    (GenerateConfigs configs).2 = .responded 200 (configs.map templatedEntry) := by
  obtain ⟨acc', h'⟩ := configureEntries_completed configs [] h
  simp [GenerateConfigs, configureHelmChart, h']

theorem templatedEntry_of_not_classified (key : String) (v : Value)
    (h : classify key v = none) : templatedEntry (key, v) = (key, v) := by
  simp [templatedEntry, h]

theorem templatedEntry_fst (e : String × Value) : (templatedEntry e).1 = e.1 := by
  unfold templatedEntry
  split <;> rfl

/-! ## The handler: values.yaml, the response, a resource that is not a map -/

/-- C4: the one document handed to the serializer for `helm/values.yaml` is the decoded
configuration itself, whether or not the rest of the request completes; on the sample with a
recognized resource the placeholders and the injected keys appear in the manifest only. -/
theorem C4_values_yaml_holds_the_input :
    (∀ configs : Mapping, writtenDocs "helm/values.yaml" (GenerateConfigs configs).1 = [configs])
    ∧ (GenerateConfigs [("deployment", .map [("replicas", .num 2)]), ("owner", .str "me")]).1
      = [.mkdirAll "helm", .create "helm/values.yaml",
          .write "helm/values.yaml"
            [("deployment", .map [("replicas", .num 2)]), ("owner", .str "me")],
          .mkdirAll "helm/templates", .create "helm/templates/deployment.yaml",
          .write "helm/templates/deployment.yaml"
            [("replicas", .str "\x7b\x7b.Values.deployment.replicas\x7d\x7d"),
              ("apiVersion", .str "apps/v1"), ("kind", .str "Deployment")]] := by
  refine ⟨?_, rfl⟩
  intro configs
  have h := writtenDocs_values_configureHelmChart configs
  rw [GenerateConfigs_events]
  unfold writtenDocs at h ⊢
  rw [List.filterMap_append, h]
  have hp : baseHelmFolder ++ "/values.yaml" = "helm/values.yaml" := by decide
  simp [generateValuesYamlFile, hp]

/-- C5, counterexample: for a configuration with a recognized resource the body of the
response is not the decoded input. -/
theorem C5_response_differs_from_input :
    ∃ body, (GenerateConfigs [("deployment", .map [("replicas", .num 2)])]).2
        = .responded 200 body
      ∧ body ≠ [("deployment", .map [("replicas", .num 2)])] :=
  ⟨[("deployment", .map [("replicas", .str "\x7b\x7b.Values.deployment.replicas\x7d\x7d"),
      ("apiVersion", .str "apps/v1"), ("kind", .str "Deployment")])], rfl, by simp⟩

/-- C5, as amended: when every recognized key holds a map the handler responds with status
200 and a body with the keys of the input in the same positions; an entry whose key is not
recognized is the input entry, an entry whose key is recognized holds the manifest of its
resource map; with no recognized key the body is the input. -/
theorem C5_response_holds_input_and_manifests (configs : Mapping)
    (h : ∀ key v kubeObj, (key, v) ∈ configs → classify key v = some kubeObj →
      ∃ m, v = .map m) :
    ∃ body, (GenerateConfigs configs).2 = .responded 200 body
      ∧ body.map Prod.fst = configs.map Prod.fst
      ∧ (∀ (i : Nat) (key : String) (v : Value), configs[i]? = some (key, v) →
          (classify key v = none → body[i]? = some (key, v))
          ∧ (∀ kubeObj m, classify key v = some kubeObj → v = .map m →
              body[i]? = some (key, .map (mapSet (mapSet
                (generatePlaceholders m [] "" key).1
                "apiVersion" (.str kubeObj.APIVersion)) "kind" (.str kubeObj.Kind)))))
      ∧ ((∀ key v, (key, v) ∈ configs → classify key v = none) → body = configs) := by
  refine ⟨configs.map templatedEntry, GenerateConfigs_completed configs h, ?_, ?_, ?_⟩
  · rw [List.map_map]
    exact List.map_congr_left (fun e _ => templatedEntry_fst e)
  · intro i key v hi
    refine ⟨?_, ?_⟩
    · intro hc
      rw [List.getElem?_map, hi]
      simp [templatedEntry_of_not_classified key v hc]
    · intro kubeObj m hc hv
      subst hv
      rw [List.getElem?_map, hi]
      have hk := (classify_some key (.map m) kubeObj hc).2.1
      simp [templatedEntry, hc, emittedManifest, hk]
  · intro hn
    have : ∀ e ∈ configs, templatedEntry e = id e := by
      intro e he
      obtain ⟨key, v⟩ := e
      exact templatedEntry_of_not_classified key v (hn key v he)
    rw [List.map_congr_left this, List.map_id]

theorem C5_response_holds_input_and_manifests_witness :
    (∀ key v kubeObj,
      (key, v) ∈ [("owner", Value.str "me"), ("Service", .map [("port", .num 80)])] →
      classify key v = some kubeObj → ∃ m, v = .map m)
    ∧ ∃ body, (GenerateConfigs [("owner", .str "me"), ("Service", .map [("port", .num 80)])]).2
        = .responded 200 body
      ∧ body.map Prod.fst
        = [("owner", Value.str "me"), ("Service", .map [("port", .num 80)])].map Prod.fst
      ∧ (∀ (i : Nat) (key : String) (v : Value),
          [("owner", Value.str "me"), ("Service", .map [("port", .num 80)])][i]? = some (key, v) →
          (classify key v = none → body[i]? = some (key, v))
          ∧ (∀ kubeObj m, classify key v = some kubeObj → v = .map m →
              body[i]? = some (key, .map (mapSet (mapSet
                (generatePlaceholders m [] "" key).1
                "apiVersion" (.str kubeObj.APIVersion)) "kind" (.str kubeObj.Kind)))))
      ∧ ((∀ key v, (key, v) ∈ [("owner", Value.str "me"), ("Service", .map [("port", .num 80)])] →
          classify key v = none) →
          body = [("owner", Value.str "me"), ("Service", .map [("port", .num 80)])]) :=
  have hyp : ∀ key v kubeObj,
      (key, v) ∈ [("owner", Value.str "me"), ("Service", .map [("port", .num 80)])] →
      classify key v = some kubeObj → ∃ m, v = .map m := by
    intro key v kubeObj hm hc
    simp only [List.mem_cons, Prod.mk.injEq, List.not_mem_nil, or_false] at hm
    rcases hm with ⟨rfl, rfl⟩ | ⟨rfl, rfl⟩
    · have hn : classify "owner" (.str "me") = none := rfl
      rw [hn] at hc
      cases hc
    · exact ⟨_, rfl⟩
  ⟨hyp, C5_response_holds_input_and_manifests _ hyp⟩

/-- C6, counterexample: on the sample of the specification the handler panics; it returns no
error value to its caller. -/
theorem C6_scalar_resource_panics :
    (GenerateConfigs [("deployment", .str "not-an-object")]).2 = .panicked
    ∧ ¬ ∃ err, (GenerateConfigs [("deployment", .str "not-an-object")]).2 = .failed err :=
  ⟨rfl, by rintro ⟨err, h⟩; cases h⟩

/-- C6, as amended: processing a component whose value is not a map creates its manifest file
and panics at the type assertion, writing nothing; a configuration in which a recognized key
holds a value that is not a map makes the handler end in a panic. -/
theorem C6_non_map_resource_ends_in_panic :
    (∀ (kubeObj : KubeComponent) (responseMap : Mapping),
      (∀ m, kubeObj.KubeObjectValue ≠ .map m) →
      generateHelmChart kubeObj responseMap
        = ([.create (templatesFolderPath ++ "/" ++ kubeObj.KubeComponentType ++ ".yaml")],
            .panicked))
    ∧ (∀ (configs : Mapping) (key : String) (v : Value) (kubeObj : KubeComponent),
      (key, v) ∈ configs → classify key v = some kubeObj → (∀ m, v ≠ .map m) →
      (GenerateConfigs configs).2 = .panicked) := by
  refine ⟨?_, ?_⟩
  · intro kubeObj responseMap h
    exact generateHelmChart_not_map kubeObj responseMap h
  · intro configs key v kubeObj hm hc hv
    have := configureEntries_aborted configs [] ⟨key, v, kubeObj, hm, hc, hv⟩
    unfold GenerateConfigs configureHelmChart
    rcases hx : configureEntries configs [] with ⟨ev, (⟨es', acc'⟩ | _)⟩
    · rw [hx] at this
      simp at this
    · rfl

theorem C6_non_map_resource_ends_in_panic_witness :
    (("ingress", Value.seq [.map [("host", .str "a")]])
        ∈ [("owner", Value.str "me"), ("ingress", Value.seq [.map [("host", .str "a")]])]
      ∧ classify "ingress" (.seq [.map [("host", .str "a")]])
        = some ⟨"ingress", "networking.k8s.io/v1", "Ingress",
            .seq [.map [("host", .str "a")]], "ingress"⟩
      ∧ ∀ m, Value.seq [.map [("host", .str "a")]] ≠ .map m)
    ∧ (GenerateConfigs
        [("owner", .str "me"), ("ingress", .seq [.map [("host", .str "a")]])]).2 = .panicked :=
  ⟨⟨by simp, rfl, by intro m h; cases h⟩,
    C6_non_map_resource_ends_in_panic.2 _ "ingress" (.seq [.map [("host", .str "a")]])
      ⟨"ingress", "networking.k8s.io/v1", "Ingress", .seq [.map [("host", .str "a")]], "ingress"⟩
      (by simp) rfl (by intro m h; cases h)⟩

/-! ## Lemmas on `EqualFold` -/

theorem SimpleFold_lower (r : Nat) (h1 : 97 ≤ r) (h2 : r ≤ 122) (hk : r ≠ 107) (hs : r ≠ 115) :
    SimpleFold r = r - 32 := by
  unfold SimpleFold
  split_ifs <;> omega

theorem SimpleFold_upper (r : Nat) (h1 : 65 ≤ r) (h2 : r ≤ 90) :
    SimpleFold r = r + 32 := by
  unfold SimpleFold
  split_ifs <;> omega

theorem simpleFoldLoop_lower (sr tr : Nat) (h1 : 97 ≤ tr) (h2 : tr ≤ 122) (hsr : 128 ≤ sr) :
    simpleFoldLoop 4 (SimpleFold tr) tr sr = sr ↔ caseFold sr = tr := by
  have hc : caseFold sr = tr ↔ (sr = 0x212A ∧ tr = 107) ∨ (sr = 0x17F ∧ tr = 115) := by
    unfold caseFold
    split_ifs <;> omega
  rw [hc]
  by_cases hk : tr = 107
  · subst hk
    have e1 : SimpleFold 107 = 0x212A := by decide
    have e2 : SimpleFold 0x212A = 75 := by decide
    have e3 : SimpleFold 75 = 107 := by decide
    rw [e1]
    by_cases hlt : 0x212A < sr
    · simp only [simpleFoldLoop, e2, e3]
      split_ifs <;> omega
    · have e4 : simpleFoldLoop 4 0x212A 107 sr = 0x212A := by
        simp [simpleFoldLoop, hlt]
      rw [e4]
      omega
  · by_cases hs : tr = 115
    · subst hs
      have e1 : SimpleFold 115 = 0x17F := by decide
      have e2 : SimpleFold 0x17F = 83 := by decide
      have e3 : SimpleFold 83 = 115 := by decide
      rw [e1]
      by_cases hlt : 0x17F < sr
      · simp only [simpleFoldLoop, e2, e3]
        split_ifs <;> omega
      · have e4 : simpleFoldLoop 4 0x17F 115 sr = 0x17F := by
          simp [simpleFoldLoop, hlt]
        rw [e4]
        omega
    · rw [SimpleFold_lower tr h1 h2 hk hs]
      have e : SimpleFold (tr - 32) = tr := by
        rw [SimpleFold_upper (tr - 32) (by omega) (by omega)]
        omega
      have c1 : tr - 32 ≠ tr ∧ tr - 32 < sr := by omega
      simp only [simpleFoldLoop, e, c1]
      split_ifs <;> omega

theorem simpleFoldLoop_stop (n r sr tr : Nat) (h : ¬ (r ≠ sr ∧ r < tr)) :
    simpleFoldLoop n r sr tr = r := by
  cases n <;> simp only [simpleFoldLoop, h, if_false]

theorem SimpleFold_cube (r : Nat) (h : r < 128) :
    SimpleFold r = r ∨ SimpleFold (SimpleFold r) = r
      ∨ SimpleFold (SimpleFold (SimpleFold r)) = r := by
  interval_cases r <;> decide

theorem simpleFoldLoop_step (n r sr tr : Nat) (h : r ≠ sr ∧ r < tr) :
    simpleFoldLoop (n + 1) r sr tr = simpleFoldLoop n (SimpleFold r) sr tr := by
  rw [simpleFoldLoop, if_pos h]

/-- The bound of `simpleFoldLoop` is never what ends the loop of `equalFoldRune`. -/
theorem simpleFoldLoop_fuel (n sr tr : Nat) (h : sr < 128) :
    simpleFoldLoop (4 + n) (SimpleFold sr) sr tr = simpleFoldLoop 4 (SimpleFold sr) sr tr := by
  have e : 4 + n = (n + 3) + 1 := by omega
  have e' : n + 3 = (n + 2) + 1 := by omega
  rw [e]
  by_cases c1 : SimpleFold sr ≠ sr ∧ SimpleFold sr < tr
  · rw [simpleFoldLoop_step _ _ _ _ c1, simpleFoldLoop_step 3 _ _ _ c1]
    by_cases c2 : SimpleFold (SimpleFold sr) ≠ sr ∧ SimpleFold (SimpleFold sr) < tr
    · rw [e', simpleFoldLoop_step _ _ _ _ c2, simpleFoldLoop_step 2 _ _ _ c2]
      have c3 : ¬ (SimpleFold (SimpleFold (SimpleFold sr)) ≠ sr
          ∧ SimpleFold (SimpleFold (SimpleFold sr)) < tr) := by
        rcases SimpleFold_cube sr h with h1 | h2 | h3
        · exact absurd h1 c1.1
        · exact absurd h2 c2.1
        · simp [h3]
      rw [simpleFoldLoop_stop _ _ _ _ c3, simpleFoldLoop_stop _ _ _ _ c3]
    · rw [simpleFoldLoop_stop _ _ _ _ c2, simpleFoldLoop_stop _ _ _ _ c2]
  · rw [simpleFoldLoop_stop _ _ _ _ c1, simpleFoldLoop_stop _ _ _ _ c1]

theorem equalFoldRune_lower (sr tr : Nat) (h1 : 97 ≤ tr) (h2 : tr ≤ 122) :
    equalFoldRune sr tr = true ↔ caseFold sr = tr := by
  by_cases hsr : sr < 128
  · have : (if tr < sr then sr else tr) < 128 := by split_ifs <;> omega
    simp only [equalFoldRune, caseFold, this, if_true]
    split_ifs <;> simp <;> omega
  · have hlt : tr < sr := by omega
    have hne : ¬ tr = sr := by omega
    have hge : ¬ sr < 128 := hsr
    simp only [equalFoldRune, hne, hlt, if_true, if_false, hge, decide_eq_true_eq]
    exact simpleFoldLoop_lower sr tr h1 h2 (by omega)

theorem equalFoldRunes_lower (t : List Nat) (ht : ∀ c ∈ t, 97 ≤ c ∧ c ≤ 122) (s : List Nat) :
    equalFoldRunes s t = true ↔ s.map caseFold = t := by
  induction t generalizing s with
  | nil => cases s <;> simp [equalFoldRunes]
  | cons tr t' ih =>
    cases s with
    | nil => simp [equalFoldRunes]
    | cons sr s' =>
      have hh := ht tr (List.mem_cons_self _ _)
      have ih' := ih (fun c hc => ht c (List.mem_cons_of_mem _ hc)) s'
      simp only [equalFoldRunes, Bool.and_eq_true, List.map_cons, List.cons.injEq]
      rw [equalFoldRune_lower sr tr hh.1 hh.2, ih']

theorem caseFold_map_lower (t : List Nat) (ht : ∀ c ∈ t, 97 ≤ c ∧ c ≤ 122) :
    t.map caseFold = t := by
  induction t with
  | nil => rfl
  | cons c t' ih =>
    have hh := ht c (List.mem_cons_self _ _)
    have hc : caseFold c = c := by
      unfold caseFold
      split_ifs <;> omega
    rw [List.map_cons, hc, ih (fun c hc => ht c (List.mem_cons_of_mem _ hc))]

theorem EqualFold_lower (key name : String)
    (hn : ∀ c ∈ name.data.map Char.toNat, 97 ≤ c ∧ c ≤ 122) :
    EqualFold key name = true ↔ equalsIgnoringCase key name := by
  unfold EqualFold equalsIgnoringCase
  rw [equalFoldRunes_lower _ hn, caseFold_map_lower _ hn]

theorem EqualFold_deploymentName (key : String) :
    EqualFold key deploymentName = true ↔ equalsIgnoringCase key "deployment" :=
  EqualFold_lower key "deployment" (by decide)

theorem EqualFold_serviceName (key : String) :
    EqualFold key serviceName = true ↔ equalsIgnoringCase key "service" :=
  EqualFold_lower key "service" (by decide)

theorem EqualFold_ingressName (key : String) :
    EqualFold key ingressName = true ↔ equalsIgnoringCase key "ingress" :=
  EqualFold_lower key "ingress" (by decide)

theorem equalsIgnoringCase_names_exclusive (key : String) :
    ¬ (equalsIgnoringCase key "deployment" ∧ equalsIgnoringCase key "service")
    ∧ ¬ (equalsIgnoringCase key "deployment" ∧ equalsIgnoringCase key "ingress")
    ∧ ¬ (equalsIgnoringCase key "service" ∧ equalsIgnoringCase key "ingress") := by
  unfold equalsIgnoringCase
  refine ⟨?_, ?_, ?_⟩ <;>
  · rintro ⟨h1, h2⟩
    rw [h1] at h2
    revert h2
    decide

/-! ## The classifier -/

/-- C7: a top-level key selects a component exactly when it equals `deployment`, `service` or
`ingress` ignoring case, and the component then carries the component type, API version and
kind of that name; any other key selects nothing. -/
theorem C7_classification_table (key : String) (value : Value) :
    ((classify key value).isSome = true ↔
      (equalsIgnoringCase key "deployment" ∨ equalsIgnoringCase key "service"
        ∨ equalsIgnoringCase key "ingress"))
    ∧ (equalsIgnoringCase key "deployment" →
        classify key value = some ⟨"deployment", "apps/v1", "Deployment", value, key⟩)
    ∧ (equalsIgnoringCase key "service" →
        classify key value = some ⟨"service", "v1", "Service", value, key⟩)
    ∧ (equalsIgnoringCase key "ingress" →
        classify key value = some ⟨"ingress", "networking.k8s.io/v1", "Ingress", value, key⟩)
    ∧ (¬ equalsIgnoringCase key "deployment" → ¬ equalsIgnoringCase key "service" →
        ¬ equalsIgnoringCase key "ingress" → classify key value = none) := by
  obtain ⟨x1, x2, x3⟩ := equalsIgnoringCase_names_exclusive key
  have hd := EqualFold_deploymentName key
  have hs := EqualFold_serviceName key
  have hi := EqualFold_ingressName key
  by_cases d : equalsIgnoringCase key "deployment"
  · have s : ¬ equalsIgnoringCase key "service" := fun s => x1 ⟨d, s⟩
    have i : ¬ equalsIgnoringCase key "ingress" := fun i => x2 ⟨d, i⟩
    simp [classify, hd, d, s, i]
  · by_cases s : equalsIgnoringCase key "service"
    · have i : ¬ equalsIgnoringCase key "ingress" := fun i => x3 ⟨s, i⟩
      simp [classify, hd, hs, d, s, i]
    · by_cases i : equalsIgnoringCase key "ingress"
      · simp [classify, hd, hs, hi, d, s, i]
      · simp [classify, hd, hs, hi, d, s, i]

theorem C7_classification_table_witness :
    (equalsIgnoringCase "DeployMent" "deployment"
      ∧ classify "DeployMent" (.num 1)
        = some ⟨"deployment", "apps/v1", "Deployment", .num 1, "DeployMent"⟩)
    ∧ (equalsIgnoringCase "SERVICE" "service"
      ∧ classify "SERVICE" (.num 1) = some ⟨"service", "v1", "Service", .num 1, "SERVICE"⟩)
    ∧ (equalsIgnoringCase "ingresS" "ingress"
      ∧ classify "ingresS" (.num 1)
        = some ⟨"ingress", "networking.k8s.io/v1", "Ingress", .num 1, "ingresS"⟩)
    ∧ ((¬ equalsIgnoringCase "unknownthing" "deployment"
        ∧ ¬ equalsIgnoringCase "unknownthing" "service"
        ∧ ¬ equalsIgnoringCase "unknownthing" "ingress")
      ∧ classify "unknownthing" (.num 1) = none) :=
  ⟨⟨by decide, (C7_classification_table "DeployMent" (.num 1)).2.1 (by decide)⟩,
    ⟨by decide, (C7_classification_table "SERVICE" (.num 1)).2.2.1 (by decide)⟩,
    ⟨by decide, (C7_classification_table "ingresS" (.num 1)).2.2.2.1 (by decide)⟩,
    ⟨⟨by decide, by decide, by decide⟩,
      (C7_classification_table "unknownthing" (.num 1)).2.2.2.2
        (by decide) (by decide) (by decide)⟩⟩

theorem mapGet_mapSet_same (m : Mapping) (k : String) (v : Value) :
    mapGet (mapSet m k v) k = some v := by
  induction m with
  | nil => simp [mapSet, mapGet]
  | cons e rest ih =>
    obtain ⟨k', v'⟩ := e
    by_cases h : k' = k <;> simp [mapSet, mapGet, h, ih]

theorem mapGet_mapSet_ne (m : Mapping) (k k0 : String) (v : Value) (hne : k0 ≠ k) :
    mapGet (mapSet m k v) k0 = mapGet m k0 := by
  induction m with
  | nil => simp [mapSet, mapGet, hne.symm]
  | cons e rest ih =>
    obtain ⟨k', v'⟩ := e
    by_cases h : k' = k
    · subst h
      simp [mapSet, mapGet, hne.symm]
    · by_cases h0 : k' = k0
      · subst h0
        simp [mapSet, mapGet, h]
      · simp [mapSet, mapGet, h, h0, ih]

/-- C8, counterexample: the components built for `Deployment` and for `deployment` with the
same value differ, and so do the manifests written for them. -/
theorem C8_mixed_case_component_differs :
    ∃ c1 c2 g1 g2,
      classify "Deployment" (.map [("replicas", .num 2)]) = some c1
      ∧ classify "deployment" (.map [("replicas", .num 2)]) = some c2
      ∧ c1 ≠ c2
      ∧ writtenDocs "helm/templates/deployment.yaml" (generateHelmChart c1 []).1 = [g1]
      ∧ writtenDocs "helm/templates/deployment.yaml" (generateHelmChart c2 []).1 = [g2]
      ∧ g1 ≠ g2 :=
  ⟨⟨"deployment", "apps/v1", "Deployment", .map [("replicas", .num 2)], "Deployment"⟩,
    ⟨"deployment", "apps/v1", "Deployment", .map [("replicas", .num 2)], "deployment"⟩,
    [("replicas", .str "\x7b\x7b.Values.Deployment.replicas\x7d\x7d"),
      ("apiVersion", .str "apps/v1"), ("kind", .str "Deployment")],
    [("replicas", .str "\x7b\x7b.Values.deployment.replicas\x7d\x7d"),
      ("apiVersion", .str "apps/v1"), ("kind", .str "Deployment")],
    rfl, rfl, by simp, rfl, rfl, by simp⟩

/-- C8, as amended: the components built for `Deployment` and `deployment` have the same
component type, API version, kind and value, and the same destination; each carries its key
as spelled, and the manifest written for it is the walk of the resource map under that
spelling with `apiVersion` and `kind` set. -/
theorem C8_mixed_case_same_kind_own_key :
    (∀ v : Value,
      classify "Deployment" v = some ⟨"deployment", "apps/v1", "Deployment", v, "Deployment"⟩
      ∧ classify "deployment" v = some ⟨"deployment", "apps/v1", "Deployment", v, "deployment"⟩)
    ∧ (∀ (v : Value) (acc : Mapping),
      emittedDestinations
          (generateHelmChart ⟨"deployment", "apps/v1", "Deployment", v, "Deployment"⟩ acc).1
        = emittedDestinations
          (generateHelmChart ⟨"deployment", "apps/v1", "Deployment", v, "deployment"⟩ acc).1)
    ∧ (∀ (m acc : Mapping),
      (generateHelmChart ⟨"deployment", "apps/v1", "Deployment", .map m, "Deployment"⟩ acc).1
        = [.create "helm/templates/deployment.yaml",
            .write "helm/templates/deployment.yaml"
              (mapSet (mapSet (generatePlaceholders m [] "" "Deployment").1
                "apiVersion" (.str "apps/v1")) "kind" (.str "Deployment"))]
      ∧ (generateHelmChart ⟨"deployment", "apps/v1", "Deployment", .map m, "deployment"⟩ acc).1
        = [.create "helm/templates/deployment.yaml",
            .write "helm/templates/deployment.yaml"
              (mapSet (mapSet (generatePlaceholders m [] "" "deployment").1
                "apiVersion" (.str "apps/v1")) "kind" (.str "Deployment"))]) := by
  have hp : manifestPath "deployment" = "helm/templates/deployment.yaml" := by decide
  refine ⟨?_, ?_, ?_⟩
  · intro v
    have h1 : EqualFold "Deployment" deploymentName = true := by decide
    have h2 : EqualFold "deployment" deploymentName = true := by decide
    simp [classify, h1, h2]
  · intro v acc
    cases v <;> rfl
  · intro m acc
    rw [generateHelmChart_map _ acc m rfl, generateHelmChart_map _ acc m rfl]
    simp [emittedManifest, hp]

theorem classify_of_equalsIgnoringCase (key name : String) (v : Value)
    (hn : name ∈ ["deployment", "service", "ingress"]) (h : equalsIgnoringCase key name) :
    ∃ kubeObj, classify key v = some kubeObj ∧ kubeObj.KubeComponentType = name := by
  obtain ⟨x1, x2, x3⟩ := equalsIgnoringCase_names_exclusive key
  have hd := EqualFold_deploymentName key
  have hs := EqualFold_serviceName key
  have hi := EqualFold_ingressName key
  simp only [List.mem_cons, List.mem_singleton, List.not_mem_nil, or_false] at hn
  rcases hn with rfl | rfl | rfl
  · exact ⟨⟨"deployment", "apps/v1", "Deployment", v, key⟩,
      by simp [classify, hd, h], rfl⟩
  · have d : ¬ equalsIgnoringCase key "deployment" := fun d => x1 ⟨d, h⟩
    exact ⟨⟨"service", "v1", "Service", v, key⟩, by simp [classify, hd, hs, h, d], rfl⟩
  · have d : ¬ equalsIgnoringCase key "deployment" := fun d => x2 ⟨d, h⟩
    have s : ¬ equalsIgnoringCase key "service" := fun s => x3 ⟨s, h⟩
    exact ⟨⟨"ingress", "networking.k8s.io/v1", "Ingress", v, key⟩,
      by simp [classify, hd, hs, hi, h, d, s], rfl⟩

theorem equalsIgnoringCase_of_classify (key : String) (v : Value) (kubeObj : KubeComponent)
    (h : classify key v = some kubeObj) :
    kubeObj.KubeComponentType ∈ ["deployment", "service", "ingress"]
    ∧ equalsIgnoringCase key kubeObj.KubeComponentType := by
  rcases (classify_some key v kubeObj h).2.2 with h1 | h1 | h1
  · rw [h1.1]
    exact ⟨by simp, (EqualFold_deploymentName key).1 h1.2.2.2⟩
  · rw [h1.1]
    exact ⟨by simp, (EqualFold_serviceName key).1 h1.2.2.2⟩
  · rw [h1.1]
    exact ⟨by simp, (EqualFold_ingressName key).1 h1.2.2.2⟩

theorem mem_emittedDestinations (evs : List FsEvent) (p : String) :
    p ∈ emittedDestinations evs ↔ ∃ e ∈ evs, (e = .create p ∨ ∃ doc, e = .write p doc) := by
  unfold emittedDestinations
  rw [List.mem_filterMap]
  constructor
  · rintro ⟨e, he, h⟩
    refine ⟨e, he, ?_⟩
    cases e with
    | mkdirAll q => simp at h
    | create q =>
      simp only [Option.some.injEq] at h
      exact Or.inl (by rw [h])
    | write q doc =>
      simp only [Option.some.injEq] at h
      exact Or.inr ⟨doc, by rw [h]⟩
  · rintro ⟨e, he, rfl | ⟨doc, rfl⟩⟩
    · exact ⟨_, he, rfl⟩
    · exact ⟨_, he, rfl⟩

theorem mem_mapKeys_of_mem (m : Mapping) (key : String) (v : Value) (h : (key, v) ∈ m) :
    key ∈ mapKeys m :=
  List.mem_map.2 ⟨(key, v), h, rfl⟩

/-! ## The emitter: destinations, apiVersion and kind -/

/-- C9, counterexample: with `deployment` holding a scalar and visited first, the run stops
before `service` is reached, so the destination of a matched name is missing. -/
theorem C9_destination_missing_after_panic :
    emittedDestinations (configureHelmChart
        [("deployment", .str "not-an-object"), ("service", .map [])]).1
      = ["helm/templates/deployment.yaml"]
    ∧ "service" ∈ mapKeys [("deployment", .str "not-an-object"), ("service", .map [])]
    ∧ equalsIgnoringCase "service" "service"
    ∧ templatesFolderPath ++ "/" ++ "service" ++ ".yaml"
      ∉ emittedDestinations (configureHelmChart
        [("deployment", .str "not-an-object"), ("service", .map [])]).1 := by
  have h : emittedDestinations (configureHelmChart
        [("deployment", .str "not-an-object"), ("service", .map [])]).1
      = ["helm/templates/deployment.yaml"] := rfl
  refine ⟨h, by decide, by decide, ?_⟩
  rw [h]
  decide

/-- C9, as amended: every destination emitted by `configureHelmChart` is the file of a name
among `deployment`, `service`, `ingress` that some top-level key matches ignoring case, so a
key matching none of them produces nothing; when every recognized key holds a map, the
destinations emitted are exactly the files of the matched names. -/
theorem C9_destinations_are_the_matched_names :
    (∀ (configs : Mapping) (p : String),
      p ∈ emittedDestinations (configureHelmChart configs).1 →
      ∃ name, name ∈ ["deployment", "service", "ingress"]
        ∧ p = templatesFolderPath ++ "/" ++ name ++ ".yaml"
        ∧ ∃ key, key ∈ mapKeys configs ∧ equalsIgnoringCase key name)
    ∧ (∀ configs : Mapping,
      (∀ key v kubeObj, (key, v) ∈ configs → classify key v = some kubeObj →
        ∃ m, v = .map m) →
      ∀ name, name ∈ ["deployment", "service", "ingress"] →
        (templatesFolderPath ++ "/" ++ name ++ ".yaml"
            ∈ emittedDestinations (configureHelmChart configs).1
          ↔ ∃ key, key ∈ mapKeys configs ∧ equalsIgnoringCase key name))
    ∧ emittedDestinations (configureHelmChart
        [("unknownthing", .map [("a", .num 1)]), ("Ingress", .map [])]).1
      = ["helm/templates/ingress.yaml", "helm/templates/ingress.yaml"] := by
  have sound : ∀ (configs : Mapping) (p : String),
      p ∈ emittedDestinations (configureHelmChart configs).1 →
      ∃ name, name ∈ ["deployment", "service", "ingress"]
        ∧ p = templatesFolderPath ++ "/" ++ name ++ ".yaml"
        ∧ ∃ key, key ∈ mapKeys configs ∧ equalsIgnoringCase key name := by
    intro configs p hp
    rw [configureHelmChart_events, mem_emittedDestinations] at hp
    obtain ⟨e, he, hp⟩ := hp
    rcases List.mem_cons.1 he with rfl | he
    · rcases hp with h | ⟨doc, h⟩ <;> cases h
    · obtain ⟨key, v, kubeObj, hm, hc, hev⟩ := configureEntries_events configs [] e he
      have hk := equalsIgnoringCase_of_classify key v kubeObj hc
      refine ⟨kubeObj.KubeComponentType, hk.1, ?_, key, mem_mapKeys_of_mem configs key v hm, hk.2⟩
      rcases hev with rfl | ⟨doc, rfl⟩
      · rcases hp with h | ⟨doc, h⟩
        · injection h with h
          exact h.symm
        · cases h
      · rcases hp with h | ⟨doc', h⟩
        · cases h
        · injection h with h _
          exact h.symm
  refine ⟨sound, ?_, rfl⟩
  intro configs hmaps name hname
  constructor
  · intro hp
    obtain ⟨name', hn', hpath, key, hk, hfold⟩ := sound configs _ hp
    have : name = name' := by
      simp only [List.mem_cons, List.mem_singleton, List.not_mem_nil, or_false] at hname hn'
      rcases hname with rfl | rfl | rfl <;> rcases hn' with rfl | rfl | rfl <;>
        first
          | rfl
          | exact absurd hpath (by decide)
    subst this
    exact ⟨key, hk, hfold⟩
  · rintro ⟨key, hk, hfold⟩
    obtain ⟨⟨key', v⟩, hm, hkey⟩ := List.mem_map.1 hk
    simp only at hkey
    subst hkey
    obtain ⟨kubeObj, hc, ht⟩ := classify_of_equalsIgnoringCase key' name v hname hfold
    obtain ⟨m, rfl⟩ := hmaps key' v kubeObj hm hc
    obtain ⟨acc', hrun⟩ := configureEntries_completed configs [] hmaps
    rw [configureHelmChart_events, hrun, mem_emittedDestinations]
    refine ⟨.create (manifestPath kubeObj.KubeComponentType), ?_, Or.inl ?_⟩
    · refine List.mem_cons_of_mem _ (List.mem_flatMap.2 ⟨(key', .map m), hm, ?_⟩)
      simp [entryEvents, hc]
    · rw [ht]
      rfl

theorem C9_destinations_are_the_matched_names_witness :
    ("helm/templates/service.yaml" ∈ emittedDestinations (configureHelmChart
        [("owner", .str "me"), ("Service", .map [("port", .num 80)])]).1
      ∧ ∃ name, name ∈ ["deployment", "service", "ingress"]
        ∧ "helm/templates/service.yaml" = templatesFolderPath ++ "/" ++ name ++ ".yaml"
        ∧ ∃ key, key ∈ mapKeys [("owner", .str "me"), ("Service", .map [("port", .num 80)])]
          ∧ equalsIgnoringCase key name)
    ∧ ((∀ key v kubeObj,
        (key, v) ∈ [("owner", Value.str "me"), ("Service", .map [("port", .num 80)])] →
        classify key v = some kubeObj → ∃ m, v = .map m)
      ∧ (templatesFolderPath ++ "/" ++ "service" ++ ".yaml"
            ∈ emittedDestinations (configureHelmChart
              [("owner", .str "me"), ("Service", .map [("port", .num 80)])]).1
          ↔ ∃ key, key ∈ mapKeys [("owner", .str "me"), ("Service", .map [("port", .num 80)])]
            ∧ equalsIgnoringCase key "service")) :=
  have hmem : "helm/templates/service.yaml" ∈ emittedDestinations (configureHelmChart
      [("owner", .str "me"), ("Service", .map [("port", .num 80)])]).1 := by
    rw [show emittedDestinations (configureHelmChart
      [("owner", .str "me"), ("Service", .map [("port", .num 80)])]).1
      = ["helm/templates/service.yaml", "helm/templates/service.yaml"] from rfl]
    decide
  have hyp : ∀ key v kubeObj,
      (key, v) ∈ [("owner", Value.str "me"), ("Service", .map [("port", .num 80)])] →
      classify key v = some kubeObj → ∃ m, v = .map m := by
    intro key v kubeObj hm hc
    simp only [List.mem_cons, Prod.mk.injEq, List.not_mem_nil, or_false] at hm
    rcases hm with ⟨rfl, rfl⟩ | ⟨rfl, rfl⟩
    · have hn : classify "owner" (.str "me") = none := rfl
      rw [hn] at hc
      cases hc
    · exact ⟨_, rfl⟩
  ⟨⟨hmem, C9_destinations_are_the_matched_names.1 _ _ hmem⟩,
    ⟨hyp, C9_destinations_are_the_matched_names.2.1 _ hyp "service" (by simp)⟩⟩

theorem mapKeys_generatePlaceholders (obj acc : Mapping) (p t : String) :
    mapKeys (generatePlaceholders obj acc p t).1 = mapKeys obj := by
  induction obj generalizing acc with
  | nil => simp [generatePlaceholders, mapKeys]
  | cons e rest ih =>
    obtain ⟨k, v⟩ := e
    have := ih (walkValue v k acc p t).2
    simp only [mapKeys] at this
    simp [generatePlaceholders, mapKeys, this]

theorem mem_mapKeys_mapSet (m : Mapping) (k k0 : String) (v : Value)
    (h : k0 ∈ mapKeys (mapSet m k v)) : k0 = k ∨ k0 ∈ mapKeys m := by
  induction m with
  | nil =>
    simp [mapSet, mapKeys] at h
    exact Or.inl h
  | cons e rest ih =>
    obtain ⟨k', v'⟩ := e
    by_cases hk : k' = k
    · subst hk
      simp only [mapSet, if_true, mapKeys, List.map_cons, List.mem_cons] at h ⊢
      rcases h with h | h
      · exact Or.inl h
      · exact Or.inr (Or.inr h)
    · simp only [mapSet, hk, if_false, mapKeys, List.map_cons, List.mem_cons] at h ⊢
      rcases h with h | h
      · exact Or.inr (Or.inl h)
      · rcases ih h with h | h
        · exact Or.inl h
        · exact Or.inr (Or.inr h)

/-- C10: the manifest written for a recognized resource holding the map `m` has `apiVersion`
and `kind` equal to those of the component, whatever `m` held there; its other keys are keys
of `m`, each holding the walked value of that key. -/
theorem C10_manifest_carries_apiVersion_and_kind :
    (∀ (key : String) (m : Mapping) (kubeObj : KubeComponent) (responseMap : Mapping),
      classify key (.map m) = some kubeObj →
      ∃ g acc, generateHelmChart kubeObj responseMap
          = ([.create (templatesFolderPath ++ "/" ++ kubeObj.KubeComponentType ++ ".yaml"),
              .write (templatesFolderPath ++ "/" ++ kubeObj.KubeComponentType ++ ".yaml") g],
            .returned (g, acc))
        ∧ mapGet g "apiVersion" = some (.str kubeObj.APIVersion)
        ∧ mapGet g "kind" = some (.str kubeObj.Kind)
        ∧ (∀ k, k ∈ mapKeys g → k = "apiVersion" ∨ k = "kind" ∨ k ∈ mapKeys m)
        ∧ (∀ k, k ≠ "apiVersion" → k ≠ "kind" →
            mapGet g k = (mapGet m k).map (fun v => (walkValue v k [] "" key).1)))
    ∧ (generateHelmChart ⟨"service", "v1", "Service",
          .map [("apiVersion", .map [("x", .num 1)]), ("port", .num 80),
            ("kind", .seq [.str "a"])], "service"⟩ []).1
      = [.create "helm/templates/service.yaml",
          .write "helm/templates/service.yaml"
            [("apiVersion", .str "v1"),
              ("port", .str "\x7b\x7b.Values.service.port\x7d\x7d"),
              ("kind", .str "Service")]] := by
  refine ⟨?_, rfl⟩
  intro key m kubeObj responseMap hc
  obtain ⟨hv, hk, _⟩ := classify_some key (.map m) kubeObj hc
  refine ⟨emittedManifest kubeObj m, _, generateHelmChart_map kubeObj responseMap m hv,
    ?_, ?_, ?_, ?_⟩
  · unfold emittedManifest
    rw [mapGet_mapSet_ne _ _ _ _ (by decide), mapGet_mapSet_same]
  · unfold emittedManifest
    rw [mapGet_mapSet_same]
  · intro k hmem
    unfold emittedManifest at hmem
    rcases mem_mapKeys_mapSet _ _ _ _ hmem with h | h
    · exact Or.inr (Or.inl h)
    · rcases mem_mapKeys_mapSet _ _ _ _ h with h | h
      · exact Or.inl h
      · rw [mapKeys_generatePlaceholders] at h
        exact Or.inr (Or.inr h)
  · intro k h1 h2
    unfold emittedManifest
    rw [mapGet_mapSet_ne _ _ _ _ h2, mapGet_mapSet_ne _ _ _ _ h1, hk,
      mapGet_generatePlaceholders]

theorem C10_manifest_carries_apiVersion_and_kind_witness :
    classify "Ingress" (.map [("kind", .num 1), ("host", .str "a")])
      = some ⟨"ingress", "networking.k8s.io/v1", "Ingress",
          .map [("kind", .num 1), ("host", .str "a")], "Ingress"⟩
    ∧ ∃ g acc, generateHelmChart ⟨"ingress", "networking.k8s.io/v1", "Ingress",
          .map [("kind", .num 1), ("host", .str "a")], "Ingress"⟩ []
          = ([.create (templatesFolderPath ++ "/" ++ "ingress" ++ ".yaml"),
              .write (templatesFolderPath ++ "/" ++ "ingress" ++ ".yaml") g],
            .returned (g, acc))
        ∧ mapGet g "apiVersion" = some (.str "networking.k8s.io/v1")
        ∧ mapGet g "kind" = some (.str "Ingress")
        ∧ (∀ k, k ∈ mapKeys g → k = "apiVersion" ∨ k = "kind"
            ∨ k ∈ mapKeys [("kind", .num 1), ("host", .str "a")])
        ∧ (∀ k, k ≠ "apiVersion" → k ≠ "kind" →
            mapGet g k = (mapGet [("kind", .num 1), ("host", .str "a")] k).map
              (fun v => (walkValue v k [] "" "Ingress").1)) :=
  ⟨rfl, C10_manifest_carries_apiVersion_and_kind.1 "Ingress"
    [("kind", .num 1), ("host", .str "a")]
    ⟨"ingress", "networking.k8s.io/v1", "Ingress",
      .map [("kind", .num 1), ("host", .str "a")], "Ingress"⟩ [] rfl⟩

/-! ## The empty resource, the shape of the walked tree -/

/-- C11: for a recognized key holding the empty map, the manifest written holds exactly
`apiVersion` and `kind` with the values of the component; `service` with the empty map gives
`apiVersion: v1`, `kind: Service`. -/
theorem C11_empty_resource_manifest :
    (∀ (key : String) (kubeObj : KubeComponent) (responseMap : Mapping),
      classify key (.map []) = some kubeObj →
      generateHelmChart kubeObj responseMap
        = ([.create (templatesFolderPath ++ "/" ++ kubeObj.KubeComponentType ++ ".yaml"),
            .write (templatesFolderPath ++ "/" ++ kubeObj.KubeComponentType ++ ".yaml")
              [("apiVersion", .str kubeObj.APIVersion), ("kind", .str kubeObj.Kind)]],
          .returned ([("apiVersion", .str kubeObj.APIVersion), ("kind", .str kubeObj.Kind)],
            responseMap)))
    ∧ configureHelmChart [("service", .map [])]
      = ([.mkdirAll "helm/templates", .create "helm/templates/service.yaml",
          .write "helm/templates/service.yaml"
            [("apiVersion", .str "v1"), ("kind", .str "Service")]],
        .returned [("service", .map [("apiVersion", .str "v1"), ("kind", .str "Service")])]) := by
  refine ⟨?_, rfl⟩
  intro key kubeObj responseMap hc
  obtain ⟨hv, _, _⟩ := classify_some key (.map []) kubeObj hc
  rw [generateHelmChart_map kubeObj responseMap [] hv]
  have hne : ¬ ("apiVersion" = "kind") := by decide
  simp [emittedManifest, generatePlaceholders, mapSet, manifestPath, hne]

theorem C11_empty_resource_manifest_witness :
    classify "INGRESS" (.map [])
      = some ⟨"ingress", "networking.k8s.io/v1", "Ingress", .map [], "INGRESS"⟩
    ∧ generateHelmChart ⟨"ingress", "networking.k8s.io/v1", "Ingress", .map [], "INGRESS"⟩
        [("host", .str "kept")]
      = ([.create (templatesFolderPath ++ "/" ++ "ingress" ++ ".yaml"),
          .write (templatesFolderPath ++ "/" ++ "ingress" ++ ".yaml")
            [("apiVersion", .str "networking.k8s.io/v1"), ("kind", .str "Ingress")]],
        .returned ([("apiVersion", .str "networking.k8s.io/v1"), ("kind", .str "Ingress")],
          [("host", .str "kept")])) :=
  ⟨rfl, C11_empty_resource_manifest.1 "INGRESS"
    ⟨"ingress", "networking.k8s.io/v1", "Ingress", .map [], "INGRESS"⟩
    [("host", .str "kept")] rfl⟩

mutual
theorem sameShapeMap_walk (obj acc : Mapping) (p t : String) :
    sameShapeMap obj (generatePlaceholders obj acc p t).1 :=
  match obj with
  | [] => by simp [generatePlaceholders, sameShapeMap]
  | (k, v) :: rest => by
    simp only [generatePlaceholders, sameShapeMap]
    exact ⟨_, _, rfl, sameShapeHeld_walk v k acc p t, sameShapeMap_walk rest _ p t⟩
termination_by structural obj
theorem sameShapeHeld_walk (v : Value) (k : String) (acc : Mapping) (p t : String) :
    sameShapeHeld v (walkValue v k acc p t).1 :=
  match v with
  | .map m => by
    simp only [walkValue, sameShapeHeld]
    exact ⟨_, rfl, sameShapeMap_walk m acc _ t⟩
  | .seq xs => by
    simp only [walkValue, sameShapeHeld]
    exact ⟨_, rfl, sameShapeSlice_walk xs acc _ t⟩
  | .null => by simp [walkValue, sameShapeHeld]
  | .bool _ => by simp [walkValue, sameShapeHeld]
  | .num _ => by simp [walkValue, sameShapeHeld]
  | .str _ => by simp [walkValue, sameShapeHeld]
termination_by structural v
theorem sameShapeSlice_walk (xs : List Value) (acc : Mapping) (p t : String) :
    sameShapeSlice xs (walkSlice xs acc p t).1 :=
  match xs with
  | [] => by simp [walkSlice, sameShapeSlice]
  | .map m :: rest => by
    simp only [walkSlice, sameShapeSlice]
    exact ⟨_, _, rfl, sameShapeSlice_walk rest _ p t, _, rfl, sameShapeMap_walk m acc p t⟩
  | .seq _ :: rest => by
    simp only [walkSlice, sameShapeSlice]
    exact ⟨_, _, rfl, sameShapeSlice_walk rest _ p t, rfl⟩
  | .null :: rest => by
    simp only [walkSlice, sameShapeSlice]
    exact ⟨_, _, rfl, sameShapeSlice_walk rest _ p t, rfl⟩
  | .bool _ :: rest => by
    simp only [walkSlice, sameShapeSlice]
    exact ⟨_, _, rfl, sameShapeSlice_walk rest _ p t, rfl⟩
  | .num _ :: rest => by
    simp only [walkSlice, sameShapeSlice]
    exact ⟨_, _, rfl, sameShapeSlice_walk rest _ p t, rfl⟩
  | .str _ :: rest => by
    simp only [walkSlice, sameShapeSlice]
    exact ⟨_, _, rfl, sameShapeSlice_walk rest _ p t, rfl⟩
termination_by structural xs
end

/-- C12: the tree returned by `generatePlaceholders` has the shape of the input: the same keys
in every map, the same length and positions in every slice, maps stay maps and slices stay
slices, and the only values that change are the leaves held by a map, which become strings. -/
theorem C12_walk_keeps_the_shape (obj acc : Mapping) (p rk : String) :
    sameShapeMap obj (generatePlaceholders obj acc p rk).1
    ∧ mapKeys (generatePlaceholders obj acc p rk).1 = mapKeys obj
    ∧ (∀ k v, mapGet obj k = some v →
        ∃ w, mapGet (generatePlaceholders obj acc p rk).1 k = some w ∧ sameShapeHeld v w)
    ∧ (∀ k, mapGet obj k = none → mapGet (generatePlaceholders obj acc p rk).1 k = none) := by
  refine ⟨sameShapeMap_walk obj acc p rk, mapKeys_generatePlaceholders obj acc p rk, ?_, ?_⟩
  · intro k v h
    refine ⟨(walkValue v k [] p rk).1, ?_, sameShapeHeld_walk v k [] p rk⟩
    rw [mapGet_generatePlaceholders, h]
    rfl
  · intro k h
    rw [mapGet_generatePlaceholders, h]
    rfl

theorem C12_walk_keeps_the_shape_witness :
    mapGet [("spec", .map [("ports", .seq [.num 80, .map [("name", .null)]])])] "spec"
        = some (.map [("ports", .seq [.num 80, .map [("name", .null)]])])
    ∧ ∃ w, mapGet (generatePlaceholders
          [("spec", .map [("ports", .seq [.num 80, .map [("name", .null)]])])]
          [] "" "service").1 "spec" = some w
        ∧ sameShapeHeld (.map [("ports", .seq [.num 80, .map [("name", .null)]])]) w :=
  ⟨rfl, (C12_walk_keeps_the_shape
    [("spec", .map [("ports", .seq [.num 80, .map [("name", .null)]])])]
    [] "" "service").2.2.1 "spec" _ rfl⟩

/-! ## Independence of the visiting order and of the accumulator -/

theorem mapErase_generatePlaceholders (b acc : Mapping) (p t k : String) :
    mapErase (generatePlaceholders b acc p t).1 k
      = (generatePlaceholders (mapErase b k) acc p t).1 := by
  induction b generalizing acc with
  | nil => simp [generatePlaceholders, mapErase]
  | cons e rest ih =>
    obtain ⟨k', v⟩ := e
    by_cases h : k' = k
    · simp only [generatePlaceholders, mapErase, h, if_true]
      exact generatePlaceholders_fst_acc rest _ _ p t
    · simp only [generatePlaceholders, mapErase, h, if_false]
      rw [ih, walkValue_fst_acc v k' acc acc p t]

mutual
theorem sameMap_walk (a b acc acc' : Mapping) (p t : String) (h : sameMap a b) :
    sameMap (generatePlaceholders a acc p t).1 (generatePlaceholders b acc' p t).1 :=
  match a, h with
  | [], h => by
    simp only [sameMap] at h
    subst h
    simp [generatePlaceholders, sameMap]
  | (k, v) :: rest, h => by
    simp only [sameMap] at h
    obtain ⟨w, hg, hv, hr⟩ := h
    simp only [generatePlaceholders, sameMap]
    refine ⟨(walkValue w k [] p t).1, ?_, sameValue_walk v w k _ _ p t hv, ?_⟩
    · rw [mapGet_generatePlaceholders, hg]
      rfl
    · rw [mapErase_generatePlaceholders]
      exact sameMap_walk rest (mapErase b k) _ acc' p t hr
termination_by structural a
theorem sameValue_walk (v w : Value) (k : String) (acc acc' : Mapping) (p t : String)
    (h : sameValue v w) :
    sameValue (walkValue v k acc p t).1 (walkValue w k acc' p t).1 :=
  match v, h with
  | .map m, h => by
    simp only [sameValue] at h
    obtain ⟨m', rfl, hm⟩ := h
    simp only [walkValue, sameValue]
    exact ⟨_, rfl, sameMap_walk m m' acc acc' _ t hm⟩
  | .seq xs, h => by
    simp only [sameValue] at h
    obtain ⟨ys, rfl, hs⟩ := h
    simp only [walkValue, sameValue]
    exact ⟨_, rfl, sameSlice_walk xs ys acc acc' _ t hs⟩
  | .null, h => by
    simp only [sameValue] at h
    subst h
    simp [walkValue, sameValue]
  | .bool _, h => by
    simp only [sameValue] at h
    subst h
    simp [walkValue, sameValue]
  | .num _, h => by
    simp only [sameValue] at h
    subst h
    simp [walkValue, sameValue]
  | .str _, h => by
    simp only [sameValue] at h
    subst h
    simp [walkValue, sameValue]
termination_by structural v
theorem sameSlice_walk (xs ys : List Value) (acc acc' : Mapping) (p t : String)
    (h : sameSlice xs ys) :
    sameSlice (walkSlice xs acc p t).1 (walkSlice ys acc' p t).1 :=
  match xs, h with
  | [], h => by
    simp only [sameSlice] at h
    subst h
    simp [walkSlice, sameSlice]
  | .map m :: rest, h => by
    simp only [sameSlice, sameValue] at h
    obtain ⟨y, ys', rfl, ⟨m', rfl, hm⟩, hr⟩ := h
    simp only [walkSlice, sameSlice, sameValue]
    exact ⟨_, _, rfl, ⟨_, rfl, sameMap_walk m m' acc acc' p t hm⟩,
      sameSlice_walk rest ys' _ _ p t hr⟩
  | .seq zs :: rest, h => by
    simp only [sameSlice] at h
    obtain ⟨y, ys', rfl, hy, hr⟩ := h
    have hy' := hy
    simp only [sameValue] at hy'
    obtain ⟨zs', rfl, _⟩ := hy'
    simp only [walkSlice, sameSlice]
    exact ⟨_, _, rfl, hy, sameSlice_walk rest ys' _ _ p t hr⟩
  | .null :: rest, h => by
    simp only [sameSlice, sameValue] at h
    obtain ⟨y, ys', rfl, rfl, hr⟩ := h
    simp only [walkSlice, sameSlice, sameValue]
    exact ⟨_, _, rfl, rfl, sameSlice_walk rest ys' _ _ p t hr⟩
  | .bool _ :: rest, h => by
    simp only [sameSlice, sameValue] at h
    obtain ⟨y, ys', rfl, rfl, hr⟩ := h
    simp only [walkSlice, sameSlice, sameValue]
    exact ⟨_, _, rfl, rfl, sameSlice_walk rest ys' _ _ p t hr⟩
  | .num _ :: rest, h => by
    simp only [sameSlice, sameValue] at h
    obtain ⟨y, ys', rfl, rfl, hr⟩ := h
    simp only [walkSlice, sameSlice, sameValue]
    exact ⟨_, _, rfl, rfl, sameSlice_walk rest ys' _ _ p t hr⟩
  | .str _ :: rest, h => by
    simp only [sameSlice, sameValue] at h
    obtain ⟨y, ys', rfl, rfl, hr⟩ := h
    simp only [walkSlice, sameSlice, sameValue]
    exact ⟨_, _, rfl, rfl, sameSlice_walk rest ys' _ _ p t hr⟩
termination_by structural xs
end

theorem mapGet_perm (a b : Mapping) (k : String) (h : a.Perm b) (hn : (mapKeys a).Nodup) :
    mapGet a k = mapGet b k := by
  induction h with
  | nil => rfl
  | cons x _ ih =>
    obtain ⟨k', v⟩ := x
    simp only [mapKeys, List.map_cons, List.nodup_cons] at hn
    simp only [mapGet]
    rw [ih hn.2]
  | swap x y l =>
    obtain ⟨kx, vx⟩ := x
    obtain ⟨ky, vy⟩ := y
    simp only [mapKeys, List.map_cons, List.nodup_cons, List.mem_cons] at hn
    have hne : ky ≠ kx := fun h => hn.1 (Or.inl h)
    simp only [mapGet]
    by_cases h1 : kx = k
    · have h2 : ¬ ky = k := fun h => hne (h.trans h1.symm)
      simp [h1, h2]
    · simp [h1]
  | trans h1 _ ih1 ih2 =>
    have hn2 := (List.Perm.nodup_iff (List.Perm.map Prod.fst h1)).1 hn
    rw [ih1 hn, ih2 hn2]

/-- C13: the walked tree is the same on every run.  Two association lists holding the same Go
map under different visiting orders, at any depth, are walked into lists holding the same Go
map; reordering the entries of the walked map changes the value found under no key; and the
walked tree does not depend on the initial accumulator. -/
theorem C13_walk_independent_of_order_and_accumulator :
    (∀ (obj obj' acc acc' : Mapping) (p rk : String), sameMap obj obj' →
      sameMap (generatePlaceholders obj acc p rk).1 (generatePlaceholders obj' acc' p rk).1)
    ∧ (∀ (obj obj' acc acc' : Mapping) (p rk : String),
      obj.Perm obj' → (mapKeys obj).Nodup →
      ∀ k, mapGet (generatePlaceholders obj acc p rk).1 k
        = mapGet (generatePlaceholders obj' acc' p rk).1 k)
    ∧ (∀ (obj acc acc' : Mapping) (p rk : String),
      (generatePlaceholders obj acc p rk).1 = (generatePlaceholders obj acc' p rk).1) := by
  refine ⟨?_, ?_, ?_⟩
  · intro obj obj' acc acc' p rk h
    exact sameMap_walk obj obj' acc acc' p rk h
  · intro obj obj' acc acc' p rk hp hn k
    rw [mapGet_generatePlaceholders, mapGet_generatePlaceholders, mapGet_perm obj obj' k hp hn]
  · intro obj acc acc' p rk
    exact generatePlaceholders_fst_acc obj acc acc' p rk

theorem C13_walk_independent_of_order_and_accumulator_witness :
    (sameMap [("a", .num 1), ("b", .map [("c", .num 2), ("d", .seq [.map [("e", .null)]])])]
        [("b", .map [("d", .seq [.map [("e", .null)]]), ("c", .num 2)]), ("a", .num 1)]
      ∧ sameMap
        (generatePlaceholders
          [("a", .num 1), ("b", .map [("c", .num 2), ("d", .seq [.map [("e", .null)]])])]
          [] "" "service").1
        (generatePlaceholders
          [("b", .map [("d", .seq [.map [("e", .null)]]), ("c", .num 2)]), ("a", .num 1)]
          [("a", .str "old")] "" "service").1)
    ∧ ((List.Perm [("a", Value.num 1), ("b", .num 2)] [("b", .num 2), ("a", .num 1)]
        ∧ (mapKeys [("a", Value.num 1), ("b", .num 2)]).Nodup)
      ∧ ∀ k, mapGet (generatePlaceholders [("a", .num 1), ("b", .num 2)] [] "" "service").1 k
        = mapGet (generatePlaceholders [("b", .num 2), ("a", .num 1)] [] "" "service").1 k) :=
  have hs : sameMap
      [("a", .num 1), ("b", .map [("c", .num 2), ("d", .seq [.map [("e", .null)]])])]
      [("b", .map [("d", .seq [.map [("e", .null)]]), ("c", .num 2)]), ("a", .num 1)] := by
    simp [sameMap, sameValue, sameSlice, mapGet, mapErase]
  have hp : List.Perm [("a", Value.num 1), ("b", .num 2)] [("b", .num 2), ("a", .num 1)] :=
    List.Perm.swap _ _ _
  have hn : (mapKeys [("a", Value.num 1), ("b", .num 2)]).Nodup := by
    simp [mapKeys]
  ⟨⟨hs, C13_walk_independent_of_order_and_accumulator.1 _ _ [] [("a", .str "old")] ""
      "service" hs⟩,
    ⟨⟨hp, hn⟩, C13_walk_independent_of_order_and_accumulator.2.1 _ _ [] [] "" "service" hp hn⟩⟩

/-! ## Independence of the top-level entries -/

theorem fileAfter_append (path : String) (st : Option Mapping) (a b : List FsEvent) :
    fileAfter path st (a ++ b) = fileAfter path (fileAfter path st a) b := by
  induction a generalizing st with
  | nil => rfl
  | cons e rest ih =>
    cases e <;> rw [List.cons_append] <;> simp only [fileAfter] <;> exact ih _

theorem fileAfter_entryEvents (path : String) (st : Option Mapping) (e : String × Value) :
    fileAfter path st (entryEvents e) = fileStep path st e := by
  unfold entryEvents fileStep entryDoc
  split
  · simp only [fileAfter]
    split_ifs <;> rfl
  · rfl

theorem fileAfter_flatMap (path : String) (st : Option Mapping) (l : Mapping) :
    fileAfter path st (l.flatMap entryEvents) = l.foldl (fileStep path) st := by
  induction l generalizing st with
  | nil => rfl
  | cons e rest ih =>
    rw [List.flatMap_cons, fileAfter_append, fileAfter_entryEvents, ih, List.foldl_cons]

theorem entryDoc_some (path : String) (e : String × Value) (d : Mapping)
    (h : entryDoc path e = some d) :
    ∃ name, name ∈ ["deployment", "service", "ingress"] ∧ equalsIgnoringCase e.1 name
      ∧ manifestPath name = path := by
  unfold entryDoc at h
  split at h
  · rename_i kubeObj m hc _
    split_ifs at h with hp
    obtain ⟨h1, h2⟩ := equalsIgnoringCase_of_classify e.1 e.2 kubeObj hc
    exact ⟨_, h1, h2, hp⟩
  · cases h

theorem manifestPath_injective (n1 n2 : String)
    (h1 : n1 ∈ ["deployment", "service", "ingress"])
    (h2 : n2 ∈ ["deployment", "service", "ingress"])
    (h : manifestPath n1 = manifestPath n2) : n1 = n2 := by
  simp only [List.mem_cons, List.mem_singleton, List.not_mem_nil, or_false] at h1 h2
  rcases h1 with rfl | rfl | rfl <;> rcases h2 with rfl | rfl | rfl <;>
    first
      | rfl
      | exact absurd h (by decide)

theorem resourcesAreMaps_perm (a b : Mapping) (h : a.Perm b) (ha : resourcesAreMaps a) :
    resourcesAreMaps b :=
  fun key v kubeObj hm hc => ha key v kubeObj (h.mem_iff.2 hm) hc

theorem fileAfter_configureHelmChart (path : String) (configs : Mapping)
    (h : resourcesAreMaps configs) :
    fileAfter path none (configureHelmChart configs).1
      = configs.foldl (fileStep path) none := by
  obtain ⟨acc', hrun⟩ := configureEntries_completed configs [] h
  rw [configureHelmChart_events, hrun]
  simp only [fileAfter]
  exact fileAfter_flatMap path none configs

theorem foldl_fileStep_of_no_doc (path : String) (st : Option Mapping) (l : Mapping)
    (h : ∀ e ∈ l, entryDoc path e = none) : l.foldl (fileStep path) st = st := by
  induction l generalizing st with
  | nil => rfl
  | cons e rest ih =>
    rw [List.foldl_cons, ih _ (fun e' he' => h e' (List.mem_cons_of_mem _ he'))]
    simp [fileStep, h e (List.mem_cons_self _ _)]

theorem entryDoc_of_other_type (c : KubeComponent) (key : String) (v : Value)
    (hc : c.KubeComponentType ∈ ["deployment", "service", "ingress"])
    (h : ∀ c', classify key v = some c' → c'.KubeComponentType ≠ c.KubeComponentType) :
    entryDoc (manifestPath c.KubeComponentType) (key, v) = none := by
  cases hd : entryDoc (manifestPath c.KubeComponentType) (key, v) with
  | none => rfl
  | some d =>
    exfalso
    unfold entryDoc at hd
    split at hd
    · rename_i c' m hc' _
      split_ifs at hd with hp
      have hin := (equalsIgnoringCase_of_classify key v c' hc').1
      exact h c' hc' (manifestPath_injective _ _ hin hc hp)
    · cases hd

/-- C14, counterexample: with the keys `deployment` and `Deployment` the file
`helm/templates/deployment.yaml` ends up holding the manifest of whichever entry is processed
last, so the two processing orders leave different manifests. -/
theorem C14_case_variants_depend_on_order :
    List.Perm [("deployment", Value.map [("a", .num 1)]), ("Deployment", .map [("b", .num 2)])]
      [("Deployment", .map [("b", .num 2)]), ("deployment", .map [("a", .num 1)])]
    ∧ fileAfter "helm/templates/deployment.yaml" none (configureHelmChart
        [("deployment", .map [("a", .num 1)]), ("Deployment", .map [("b", .num 2)])]).1
      = some [("b", .str "\x7b\x7b.Values.Deployment.b\x7d\x7d"),
          ("apiVersion", .str "apps/v1"), ("kind", .str "Deployment")]
    ∧ fileAfter "helm/templates/deployment.yaml" none (configureHelmChart
        [("Deployment", .map [("b", .num 2)]), ("deployment", .map [("a", .num 1)])]).1
      = some [("a", .str "\x7b\x7b.Values.deployment.a\x7d\x7d"),
          ("apiVersion", .str "apps/v1"), ("kind", .str "Deployment")]
    ∧ fileAfter "helm/templates/deployment.yaml" none (configureHelmChart
        [("deployment", .map [("a", .num 1)]), ("Deployment", .map [("b", .num 2)])]).1
      ≠ fileAfter "helm/templates/deployment.yaml" none (configureHelmChart
        [("Deployment", .map [("b", .num 2)]), ("deployment", .map [("a", .num 1)])]).1 := by
  refine ⟨List.Perm.swap _ _ _, rfl, rfl, ?_⟩
  rw [show fileAfter "helm/templates/deployment.yaml" none (configureHelmChart
        [("deployment", .map [("a", .num 1)]), ("Deployment", .map [("b", .num 2)])]).1
      = some [("b", .str "\x7b\x7b.Values.Deployment.b\x7d\x7d"),
          ("apiVersion", .str "apps/v1"), ("kind", .str "Deployment")] from rfl,
    show fileAfter "helm/templates/deployment.yaml" none (configureHelmChart
        [("Deployment", .map [("b", .num 2)]), ("deployment", .map [("a", .num 1)])]).1
      = some [("a", .str "\x7b\x7b.Values.deployment.a\x7d\x7d"),
          ("apiVersion", .str "apps/v1"), ("kind", .str "Deployment")] from rfl]
  simp

/-- C14, as amended: when every recognized key holds a map and no two top-level keys equal the
same resource name ignoring case, every file holds the same manifest after
`configureHelmChart` whatever the order in which the top-level entries are processed; two
recognized entries of the same component type share one file, which ends up holding the
manifest of the one processed last: in every configuration whose recognized keys hold maps,
whatever its other entries, the file of a component type holds the manifest of the last
processed entry of that type. -/
theorem C14_final_manifests_independent_of_order :
    (∀ (configs configs' : Mapping), configs.Perm configs' →
      (∀ key v kubeObj, (key, v) ∈ configs → classify key v = some kubeObj →
        ∃ m, v = .map m) →
      configs.Pairwise (fun e1 e2 => ∀ name, name ∈ ["deployment", "service", "ingress"] →
        ¬ (equalsIgnoringCase e1.1 name ∧ equalsIgnoringCase e2.1 name)) →
      ∀ path, fileAfter path none (configureHelmChart configs).1
        = fileAfter path none (configureHelmChart configs').1)
    ∧ (∀ (k1 k2 : String) (m1 m2 : Mapping) (c1 c2 : KubeComponent),
      classify k1 (.map m1) = some c1 → classify k2 (.map m2) = some c2 →
      c1.KubeComponentType = c2.KubeComponentType →
      fileAfter (templatesFolderPath ++ "/" ++ c2.KubeComponentType ++ ".yaml") none
          (configureHelmChart [(k1, .map m1), (k2, .map m2)]).1
        = some (mapSet (mapSet (generatePlaceholders m2 [] "" k2).1
            "apiVersion" (.str c2.APIVersion)) "kind" (.str c2.Kind)))
    ∧ (∀ (before after : Mapping) (k : String) (m : Mapping) (c : KubeComponent),
      (∀ key v kubeObj, (key, v) ∈ before ++ (k, .map m) :: after →
        classify key v = some kubeObj → ∃ m', v = .map m') →
      classify k (.map m) = some c →
      (∀ key v c', (key, v) ∈ after → classify key v = some c' →
        c'.KubeComponentType ≠ c.KubeComponentType) →
      fileAfter (templatesFolderPath ++ "/" ++ c.KubeComponentType ++ ".yaml") none
          (configureHelmChart (before ++ (k, .map m) :: after)).1
        = some (mapSet (mapSet (generatePlaceholders m [] "" k).1
            "apiVersion" (.str c.APIVersion)) "kind" (.str c.Kind))) := by
  refine ⟨?_, ?_, ?_⟩
  · intro configs configs' hperm hmaps hpair path
    rw [fileAfter_configureHelmChart path configs hmaps,
      fileAfter_configureHelmChart path configs' (resourcesAreMaps_perm _ _ hperm hmaps)]
    refine List.Perm.foldl_eq' hperm ?_ none
    intro x hx y hy z
    by_cases hxy : x = y
    · rw [hxy]
    · have hsymm : Symmetric (fun e1 e2 : String × Value =>
          ∀ name, name ∈ ["deployment", "service", "ingress"] →
            ¬ (equalsIgnoringCase e1.1 name ∧ equalsIgnoringCase e2.1 name)) :=
        fun a b hab name hn hba => hab name hn ⟨hba.2, hba.1⟩
      have hR := List.Pairwise.forall hsymm hpair hx hy hxy
      cases hdx : entryDoc path x with
      | none => simp [fileStep, hdx]
      | some dx =>
        cases hdy : entryDoc path y with
        | none => simp [fileStep, hdy]
        | some dy =>
          obtain ⟨n1, hn1, hf1, hp1⟩ := entryDoc_some path x dx hdx
          obtain ⟨n2, hn2, hf2, hp2⟩ := entryDoc_some path y dy hdy
          have hn : n1 = n2 := manifestPath_injective n1 n2 hn1 hn2 (hp1.trans hp2.symm)
          subst hn
          exact absurd ⟨hf1, hf2⟩ (hR n1 hn1)
  · intro k1 k2 m1 m2 c1 c2 h1 h2 ht
    have hmaps : resourcesAreMaps [(k1, .map m1), (k2, .map m2)] := by
      intro key v kubeObj hm _
      simp only [List.mem_cons, Prod.mk.injEq, List.not_mem_nil, or_false] at hm
      rcases hm with ⟨_, rfl⟩ | ⟨_, rfl⟩ <;> exact ⟨_, rfl⟩
    have hk2 := (classify_some k2 (.map m2) c2 h2).2.1
    rw [fileAfter_configureHelmChart _ _ hmaps]
    simp [fileStep, entryDoc, h1, h2, ht, manifestPath, emittedManifest, hk2]
  · intro before after k m c hmaps hc hlast
    have hk := (classify_some k (.map m) c hc).2.1
    have hin := (equalsIgnoringCase_of_classify k (.map m) c hc).1
    have hpath : templatesFolderPath ++ "/" ++ c.KubeComponentType ++ ".yaml"
        = manifestPath c.KubeComponentType := rfl
    rw [hpath, fileAfter_configureHelmChart _ _ hmaps, List.foldl_append, List.foldl_cons]
    have hstep : ∀ st, fileStep (manifestPath c.KubeComponentType) st (k, .map m)
        = some (emittedManifest c m) := by
      intro st
      simp [fileStep, entryDoc, hc]
    rw [hstep, foldl_fileStep_of_no_doc _ _ after]
    · simp [emittedManifest, hk]
    · intro e he
      obtain ⟨key, v⟩ := e
      exact entryDoc_of_other_type c key v hin (fun c' hc' => hlast key v c' he hc')

theorem C14_final_manifests_independent_of_order_witness :
    ((List.Perm [("service", Value.map [("port", .num 80)]), ("Deployment", .map [])]
          [("Deployment", .map []), ("service", .map [("port", .num 80)])]
        ∧ (∀ key v kubeObj,
          (key, v) ∈ [("service", Value.map [("port", .num 80)]), ("Deployment", .map [])] →
          classify key v = some kubeObj → ∃ m, v = .map m)
        ∧ [("service", Value.map [("port", .num 80)]), ("Deployment", .map [])].Pairwise
          (fun e1 e2 => ∀ name, name ∈ ["deployment", "service", "ingress"] →
            ¬ (equalsIgnoringCase e1.1 name ∧ equalsIgnoringCase e2.1 name)))
      ∧ ∀ path, fileAfter path none (configureHelmChart
          [("service", .map [("port", .num 80)]), ("Deployment", .map [])]).1
        = fileAfter path none (configureHelmChart
          [("Deployment", .map []), ("service", .map [("port", .num 80)])]).1)
    ∧ ((classify "service" (.map [("port", .num 80)])
          = some ⟨"service", "v1", "Service", .map [("port", .num 80)], "service"⟩
        ∧ classify "SERVICE" (.map [("name", .null)])
          = some ⟨"service", "v1", "Service", .map [("name", .null)], "SERVICE"⟩)
      ∧ fileAfter (templatesFolderPath ++ "/" ++ "service" ++ ".yaml") none
          (configureHelmChart
            [("service", .map [("port", .num 80)]), ("SERVICE", .map [("name", .null)])]).1
        = some (mapSet (mapSet (generatePlaceholders [("name", .null)] [] "" "SERVICE").1
            "apiVersion" (.str "v1")) "kind" (.str "Service")))
    ∧ (((∀ key v kubeObj,
          (key, v) ∈ [("deployment", Value.map [("a", .num 1)])]
            ++ ("Deployment", .map [("b", .num 2)])
              :: [("owner", .str "me"), ("service", .map [])] →
          classify key v = some kubeObj → ∃ m', v = .map m')
        ∧ classify "Deployment" (.map [("b", .num 2)])
          = some ⟨"deployment", "apps/v1", "Deployment", .map [("b", .num 2)], "Deployment"⟩
        ∧ (∀ key v c', (key, v) ∈ [("owner", Value.str "me"), ("service", .map [])] →
          classify key v = some c' → c'.KubeComponentType ≠ "deployment"))
      ∧ fileAfter (templatesFolderPath ++ "/" ++ "deployment" ++ ".yaml") none
          (configureHelmChart ([("deployment", .map [("a", .num 1)])]
            ++ ("Deployment", .map [("b", .num 2)])
              :: [("owner", .str "me"), ("service", .map [])])).1
        = some (mapSet (mapSet (generatePlaceholders [("b", .num 2)] [] "" "Deployment").1
            "apiVersion" (.str "apps/v1")) "kind" (.str "Deployment"))) :=
  have hm3 : ∀ key v kubeObj,
      (key, v) ∈ [("deployment", Value.map [("a", .num 1)])]
        ++ ("Deployment", .map [("b", .num 2)])
          :: [("owner", .str "me"), ("service", .map [])] →
      classify key v = some kubeObj → ∃ m', v = .map m' := by
    intro key v kubeObj hm hc
    simp only [List.cons_append, List.nil_append, List.mem_cons, Prod.mk.injEq,
      List.not_mem_nil, or_false] at hm
    rcases hm with ⟨_, rfl⟩ | ⟨_, rfl⟩ | ⟨rfl, rfl⟩ | ⟨_, rfl⟩
    · exact ⟨_, rfl⟩
    · exact ⟨_, rfl⟩
    · have hn : classify "owner" (.str "me") = none := rfl
      rw [hn] at hc
      cases hc
    · exact ⟨_, rfl⟩
  have hl3 : ∀ key v c', (key, v) ∈ [("owner", Value.str "me"), ("service", .map [])] →
      classify key v = some c' → c'.KubeComponentType ≠ "deployment" := by
    intro key v c' hm hc
    simp only [List.mem_cons, Prod.mk.injEq, List.not_mem_nil, or_false] at hm
    rcases hm with ⟨rfl, rfl⟩ | ⟨rfl, rfl⟩
    · have hn : classify "owner" (.str "me") = none := rfl
      rw [hn] at hc
      cases hc
    · have hs : classify "service" (.map [])
          = some ⟨"service", "v1", "Service", .map [], "service"⟩ := rfl
      rw [hs] at hc
      simp only [Option.some.injEq] at hc
      subst hc
      decide
  have hp : List.Perm [("service", Value.map [("port", .num 80)]), ("Deployment", .map [])]
      [("Deployment", .map []), ("service", .map [("port", .num 80)])] :=
    List.Perm.swap _ _ _
  have hm : ∀ key v kubeObj,
      (key, v) ∈ [("service", Value.map [("port", .num 80)]), ("Deployment", .map [])] →
      classify key v = some kubeObj → ∃ m, v = .map m := by
    intro key v kubeObj hm _
    simp only [List.mem_cons, Prod.mk.injEq, List.not_mem_nil, or_false] at hm
    rcases hm with ⟨_, rfl⟩ | ⟨_, rfl⟩ <;> exact ⟨_, rfl⟩
  have hpw : [("service", Value.map [("port", .num 80)]), ("Deployment", .map [])].Pairwise
      (fun e1 e2 => ∀ name, name ∈ ["deployment", "service", "ingress"] →
        ¬ (equalsIgnoringCase e1.1 name ∧ equalsIgnoringCase e2.1 name)) := by
    refine List.Pairwise.cons ?_ (List.Pairwise.cons ?_ List.Pairwise.nil)
    · intro e he name hn
      simp only [List.mem_singleton] at he
      subst he
      simp only [List.mem_cons, List.mem_singleton, List.not_mem_nil, or_false] at hn
      rcases hn with rfl | rfl | rfl <;> decide
    · intro e he
      simp at he
  ⟨⟨⟨hp, hm, hpw⟩, C14_final_manifests_independent_of_order.1 _ _ hp hm hpw⟩,
    ⟨⟨rfl, rfl⟩, C14_final_manifests_independent_of_order.2.1 "service" "SERVICE"
      [("port", .num 80)] [("name", .null)]
      ⟨"service", "v1", "Service", .map [("port", .num 80)], "service"⟩
      ⟨"service", "v1", "Service", .map [("name", .null)], "SERVICE"⟩ rfl rfl rfl⟩,
    ⟨⟨hm3, rfl, hl3⟩, C14_final_manifests_independent_of_order.2.2
      [("deployment", .map [("a", .num 1)])] [("owner", .str "me"), ("service", .map [])]
      "Deployment" [("b", .num 2)]
      ⟨"deployment", "apps/v1", "Deployment", .map [("b", .num 2)], "Deployment"⟩
      hm3 rfl hl3⟩⟩

/-! ## From a placeholder back to the value in values.yaml -/

theorem dropLeading_append (pre x : List Char) : dropLeading pre (pre ++ x) = some x := by
  induction pre with
  | nil => cases x <;> rfl
  | cons a pre' ih => simp [dropLeading, ih]

theorem dropTrailing_append (suf x : List Char) : dropTrailing suf (x ++ suf) = some x := by
  unfold dropTrailing
  rw [List.reverse_append, dropLeading_append]
  simp

theorem splitOnDot_cons (c : Char) (cs : List Char) :
    splitOnDot (c :: cs)
      = if c = '.' then [] :: splitOnDot cs
        else
          match splitOnDot cs with
          | [] => [[c]]
          | w :: ws => (c :: w) :: ws := by
  simp only [splitOnDot]

theorem splitOnDot_append (w rest : List Char) (h : '.' ∉ w) :
    splitOnDot (w ++ '.' :: rest) = w :: splitOnDot rest := by
  induction w with
  | nil => simp [splitOnDot]
  | cons c w' ih =>
    simp only [List.mem_cons, not_or] at h
    have hc : ¬ c = '.' := fun e => h.1 e.symm
    rw [List.cons_append, splitOnDot_cons, if_neg hc, ih h.2]

theorem splitOnDot_single (w : List Char) (h : '.' ∉ w) : splitOnDot w = [w] := by
  induction w with
  | nil => rfl
  | cons c w' ih =>
    simp only [List.mem_cons, not_or] at h
    have hc : ¬ c = '.' := fun e => h.1 e.symm
    rw [splitOnDot_cons, if_neg hc, ih h.2]

theorem splitOnDot_intercalate (ks : List String) (hne : ks ≠ [])
    (h : ∀ k ∈ ks, '.' ∉ k.data) :
    splitOnDot (String.intercalate "." ks).data = ks.map String.data := by
  induction ks with
  | nil => exact absurd rfl hne
  | cons k rest ih =>
    cases rest with
    | nil =>
      have : String.intercalate "." [k] = k := by
        simp [String.intercalate, String.intercalate.go]
      rw [this, splitOnDot_single _ (h k (List.mem_cons_self _ _))]
      rfl
    | cons k2 rest2 =>
      rw [intercalate_cons_cons]
      have hd : (k ++ "." ++ String.intercalate "." (k2 :: rest2)).data
          = k.data ++ '.' :: (String.intercalate "." (k2 :: rest2)).data := by
        simp [String.data_append]
      rw [hd, splitOnDot_append _ _ (h k (List.mem_cons_self _ _)),
        ih (by simp) (fun k' hk' => h k' (List.mem_cons_of_mem _ hk'))]
      rfl

theorem no_dot_of_equalsIgnoringCase (key name : String)
    (hn : ∀ c ∈ name.data.map Char.toNat, 97 ≤ c ∧ c ≤ 122)
    (h : equalsIgnoringCase key name) : '.' ∉ key.data := by
  intro hmem
  have h1 : caseFold ('.' : Char).toNat ∈ (key.data.map Char.toNat).map caseFold :=
    List.mem_map_of_mem _ (List.mem_map_of_mem _ hmem)
  unfold equalsIgnoringCase at h
  rw [h, caseFold_map_lower _ hn] at h1
  have h2 := hn _ h1
  revert h2
  decide

theorem no_dot_of_classify (key : String) (v : Value) (kubeObj : KubeComponent)
    (h : classify key v = some kubeObj) : '.' ∉ key.data := by
  obtain ⟨hn, hf⟩ := equalsIgnoringCase_of_classify key v kubeObj h
  simp only [List.mem_cons, List.mem_singleton, List.not_mem_nil, or_false] at hn
  rcases hn with h1 | h1 | h1 <;> rw [h1] at hf
  · exact no_dot_of_equalsIgnoringCase key "deployment" (by decide) hf
  · exact no_dot_of_equalsIgnoringCase key "service" (by decide) hf
  · exact no_dot_of_equalsIgnoringCase key "ingress" (by decide) hf

theorem placeholderKeyPath_placeholder (rk : String) (ks : List String)
    (hrk : '.' ∉ rk.data) (hne : ks ≠ []) (h : ∀ k ∈ ks, '.' ∉ k.data) :
    placeholderKeyPath
        ("\x7b\x7b.Values." ++ rk ++ "." ++ "" ++ String.intercalate "." ks ++ "\x7d\x7d")
      = some (rk :: ks) := by
  have hd : ("\x7b\x7b.Values." ++ rk ++ "." ++ "" ++ String.intercalate "." ks
        ++ "\x7d\x7d").data
      = "\x7b\x7b.Values.".data
        ++ ((rk.data ++ '.' :: (String.intercalate "." ks).data) ++ "\x7d\x7d".data) := by
    simp [String.data_append]
  unfold placeholderKeyPath
  rw [hd, dropLeading_append]
  simp only []
  rw [dropTrailing_append]
  simp only []
  rw [splitOnDot_append _ _ hrk, splitOnDot_intercalate ks hne h]
  simp [List.map_map, Function.comp_def]

theorem valueAt_mapSet_ne (m : Mapping) (k k0 : String) (v : Value) (ks : List String)
    (hne : k0 ≠ k) :
    valueAt (.map (mapSet m k v)) (k0 :: ks) = valueAt (.map m) (k0 :: ks) := by
  simp only [valueAt, mapGet_mapSet_ne m k k0 v hne]

/-- C15: for a recognized top-level key `K` holding the map `m`, the placeholder written for
a leaf of `m` reached by keys without a dot names, between its opening and its closing and
split on the dots, the key path `K, k1, ..., kn`, and that path leads from the root of the
configuration to the original value of the leaf; the manifest holds that placeholder at the
key chain of the leaf unless the chain starts with `apiVersion` or `kind`. -/
theorem C15_placeholder_path_reaches_the_value (configs m acc : Mapping) (K : String)
    (kubeObj : KubeComponent) (ks : List String) (v : Value)
    (hK : mapGet configs K = some (.map m))
    (hc : classify K (.map m) = some kubeObj)
    (hv : valueAt (.map m) ks = some v) (hl : v.isLeaf = true)
    (hd : ∀ k ∈ ks, '.' ∉ k.data) :
    ∃ s path,
      valueAt (.map (generatePlaceholders m acc "" kubeObj.KubeObjectKey).1) ks = some (.str s)
      ∧ placeholderKeyPath s = some path
      ∧ path = K :: ks
      ∧ valueAt (.map configs) path = some v
      ∧ (ks.head? ≠ some "apiVersion" → ks.head? ≠ some "kind" →
          ∀ g acc', generateHelmChart kubeObj acc = ([
              .create (templatesFolderPath ++ "/" ++ kubeObj.KubeComponentType ++ ".yaml"),
              .write (templatesFolderPath ++ "/" ++ kubeObj.KubeComponentType ++ ".yaml") g],
              .returned (g, acc')) →
            valueAt (.map g) ks = some (.str s)) := by
  obtain ⟨hval, hkey, _⟩ := classify_some K (.map m) kubeObj hc
  have hne : ks ≠ [] := by
    rintro rfl
    simp only [valueAt, Option.some.injEq] at hv
    subst hv
    simp [Value.isLeaf] at hl
  have hw := valueAt_leaf_walk ks m acc "" kubeObj.KubeObjectKey v hv hl
  rw [hkey] at hw ⊢
  refine ⟨_, K :: ks, hw,
    placeholderKeyPath_placeholder K ks (no_dot_of_classify K (.map m) kubeObj hc) hne hd,
    rfl, ?_, ?_⟩
  · simp only [valueAt, hK]
    exact hv
  · intro h1 h2 g acc' hg
    rw [generateHelmChart_map kubeObj acc m hval] at hg
    simp only [Prod.mk.injEq, List.cons.injEq, FsEvent.write.injEq, and_true, true_and,
      FsEvent.create.injEq, Outcome.returned.injEq] at hg
    obtain ⟨⟨_, _, hg1⟩, _⟩ := hg
    subst hg1
    cases ks with
    | nil => exact absurd rfl hne
    | cons k0 ks' =>
      have a1 : k0 ≠ "apiVersion" := fun e => h1 (by rw [e]; rfl)
      have a2 : k0 ≠ "kind" := fun e => h2 (by rw [e]; rfl)
      unfold emittedManifest
      rw [valueAt_mapSet_ne _ _ _ _ _ a2, valueAt_mapSet_ne _ _ _ _ _ a1, hkey,
        generatePlaceholders_fst_acc m [] acc]
      exact hw

theorem C15_placeholder_path_reaches_the_value_witness :
    (mapGet [("owner", .str "me"), ("Deployment", .map [("spec", .map [("replicas", .num 3)])])]
          "Deployment" = some (.map [("spec", .map [("replicas", .num 3)])])
      ∧ classify "Deployment" (.map [("spec", .map [("replicas", .num 3)])])
        = some ⟨"deployment", "apps/v1", "Deployment",
            .map [("spec", .map [("replicas", .num 3)])], "Deployment"⟩
      ∧ valueAt (.map [("spec", .map [("replicas", .num 3)])]) ["spec", "replicas"]
        = some (.num 3)
      ∧ (Value.num 3).isLeaf = true
      ∧ ∀ k ∈ ["spec", "replicas"], '.' ∉ k.data)
    ∧ ∃ s path,
      valueAt (.map (generatePlaceholders [("spec", .map [("replicas", .num 3)])] []
          "" "Deployment").1) ["spec", "replicas"] = some (.str s)
      ∧ placeholderKeyPath s = some path
      ∧ path = "Deployment" :: ["spec", "replicas"]
      ∧ valueAt (.map [("owner", .str "me"),
          ("Deployment", .map [("spec", .map [("replicas", .num 3)])])]) path = some (.num 3)
      ∧ ((["spec", "replicas"] : List String).head? ≠ some "apiVersion" →
          (["spec", "replicas"] : List String).head? ≠ some "kind" →
          ∀ g acc', generateHelmChart ⟨"deployment", "apps/v1", "Deployment",
              .map [("spec", .map [("replicas", .num 3)])], "Deployment"⟩ [] = ([
              .create (templatesFolderPath ++ "/" ++ "deployment" ++ ".yaml"),
              .write (templatesFolderPath ++ "/" ++ "deployment" ++ ".yaml") g],
              .returned (g, acc')) →
            valueAt (.map g) ["spec", "replicas"] = some (.str s)) :=
  ⟨⟨rfl, rfl, rfl, rfl, by decide⟩,
    C15_placeholder_path_reaches_the_value
      [("owner", .str "me"), ("Deployment", .map [("spec", .map [("replicas", .num 3)])])]
      [("spec", .map [("replicas", .num 3)])] [] "Deployment"
      ⟨"deployment", "apps/v1", "Deployment",
        .map [("spec", .map [("replicas", .num 3)])], "Deployment"⟩
      ["spec", "replicas"] (.num 3) rfl rfl rfl rfl (by decide)⟩

/-! ## The accumulator -/

mutual
theorem generatePlaceholders_snd (obj r : Mapping) (p t : String) :
    (generatePlaceholders obj r p t).2
      = (visitedLeaves (generatePlaceholders obj r p t).1).foldl recordLeaf r :=
  match obj with
  | [] => by simp [generatePlaceholders, visitedLeaves]
  | (k, v) :: rest => by
    simp only [generatePlaceholders, visitedLeaves, List.foldl_append]
    rw [← walkValue_snd v k r p t]
    exact generatePlaceholders_snd rest _ p t
termination_by structural obj
theorem walkValue_snd (v : Value) (k : String) (r : Mapping) (p t : String) :
    (walkValue v k r p t).2 = (heldLeaves (walkValue v k r p t).1 k).foldl recordLeaf r :=
  match v with
  | .map m => by
    simp only [walkValue, heldLeaves]
    exact generatePlaceholders_snd m r _ t
  | .seq xs => by
    simp only [walkValue, heldLeaves]
    exact walkSlice_snd xs r _ t
  | .null => by simp [walkValue, heldLeaves, recordLeaf]
  | .bool _ => by simp [walkValue, heldLeaves, recordLeaf]
  | .num _ => by simp [walkValue, heldLeaves, recordLeaf]
  | .str _ => by simp [walkValue, heldLeaves, recordLeaf]
termination_by structural v
theorem walkSlice_snd (xs : List Value) (r : Mapping) (p t : String) :
    (walkSlice xs r p t).2 = (sliceLeaves (walkSlice xs r p t).1).foldl recordLeaf r :=
  match xs with
  | [] => by simp [walkSlice, sliceLeaves]
  | .map m :: rest => by
    simp only [walkSlice, sliceLeaves, List.foldl_append]
    rw [← generatePlaceholders_snd m r p t]
    exact walkSlice_snd rest _ p t
  | .seq _ :: rest => by
    simp only [walkSlice, sliceLeaves, List.nil_append]
    exact walkSlice_snd rest r p t
  | .null :: rest => by
    simp only [walkSlice, sliceLeaves, List.nil_append]
    exact walkSlice_snd rest r p t
  | .bool _ :: rest => by
    simp only [walkSlice, sliceLeaves, List.nil_append]
    exact walkSlice_snd rest r p t
  | .num _ :: rest => by
    simp only [walkSlice, sliceLeaves, List.nil_append]
    exact walkSlice_snd rest r p t
  | .str _ :: rest => by
    simp only [walkSlice, sliceLeaves, List.nil_append]
    exact walkSlice_snd rest r p t
termination_by structural xs
end

mutual
theorem visitedLeaves_names (obj r : Mapping) (p t : String) :
    (visitedLeaves (generatePlaceholders obj r p t).1).map Prod.fst
      = (visitedLeaves obj).map Prod.fst :=
  match obj with
  | [] => by simp [generatePlaceholders, visitedLeaves]
  | (k, v) :: rest => by
    simp only [generatePlaceholders, visitedLeaves, List.map_append]
    rw [heldLeaves_names v k r p t, visitedLeaves_names rest _ p t]
termination_by structural obj
theorem heldLeaves_names (v : Value) (k : String) (r : Mapping) (p t : String) :
    (heldLeaves (walkValue v k r p t).1 k).map Prod.fst = (heldLeaves v k).map Prod.fst :=
  match v with
  | .map m => by
    simp only [walkValue, heldLeaves]
    exact visitedLeaves_names m r _ t
  | .seq xs => by
    simp only [walkValue, heldLeaves]
    exact sliceLeaves_names xs r _ t
  | .null => by simp [walkValue, heldLeaves]
  | .bool _ => by simp [walkValue, heldLeaves]
  | .num _ => by simp [walkValue, heldLeaves]
  | .str _ => by simp [walkValue, heldLeaves]
termination_by structural v
theorem sliceLeaves_names (xs : List Value) (r : Mapping) (p t : String) :
    (sliceLeaves (walkSlice xs r p t).1).map Prod.fst = (sliceLeaves xs).map Prod.fst :=
  match xs with
  | [] => by simp [walkSlice, sliceLeaves]
  | .map m :: rest => by
    simp only [walkSlice, sliceLeaves, List.map_append]
    rw [visitedLeaves_names m r p t, sliceLeaves_names rest _ p t]
  | .seq _ :: rest => by
    simp only [walkSlice, sliceLeaves, List.nil_append]
    exact sliceLeaves_names rest r p t
  | .null :: rest => by
    simp only [walkSlice, sliceLeaves, List.nil_append]
    exact sliceLeaves_names rest r p t
  | .bool _ :: rest => by
    simp only [walkSlice, sliceLeaves, List.nil_append]
    exact sliceLeaves_names rest r p t
  | .num _ :: rest => by
    simp only [walkSlice, sliceLeaves, List.nil_append]
    exact sliceLeaves_names rest r p t
  | .str _ :: rest => by
    simp only [walkSlice, sliceLeaves, List.nil_append]
    exact sliceLeaves_names rest r p t
termination_by structural xs
end

theorem mapGet_foldl_recordLeaf (l : List (String × Value)) (r : Mapping) (k : String) :
    mapGet (l.foldl recordLeaf r) k
      = match lastHeld k l with
        | some w => some w
        | none => mapGet r k := by
  induction l generalizing r with
  | nil => rfl
  | cons e rest ih =>
    obtain ⟨k', v⟩ := e
    rw [List.foldl_cons, ih]
    simp only [lastHeld]
    cases lastHeld k rest with
    | some w => rfl
    | none =>
      by_cases hk : k' = k
      · subst hk
        simp [recordLeaf, mapGet_mapSet_same]
      · have hk' : k ≠ k' := fun e => hk e.symm
        simp [recordLeaf, hk, mapGet_mapSet_ne _ _ _ _ hk']

theorem lastHeld_eq_none (k : String) (l : List (String × Value))
    (h : k ∉ l.map Prod.fst) : lastHeld k l = none := by
  induction l with
  | nil => rfl
  | cons e rest ih =>
    obtain ⟨k', v⟩ := e
    simp only [List.map_cons, List.mem_cons, not_or] at h
    have hk : ¬ k' = k := fun e => h.1 e.symm
    simp [lastHeld, ih h.2, hk]

theorem lastHeld_isSome (k : String) (l : List (String × Value))
    (h : k ∈ l.map Prod.fst) : ∃ w, lastHeld k l = some w := by
  induction l with
  | nil => simp at h
  | cons e rest ih =>
    obtain ⟨k', v⟩ := e
    simp only [lastHeld]
    cases hr : lastHeld k rest with
    | some w => exact ⟨w, rfl⟩
    | none =>
      simp only [List.map_cons, List.mem_cons] at h
      rcases h with h | h
      · exact ⟨v, by simp [h]⟩
      · obtain ⟨w, hw⟩ := ih h
        rw [hr] at hw
        cases hw

theorem lastHeld_mem (k : String) (l : List (String × Value)) (w : Value)
    (h : lastHeld k l = some w) : (k, w) ∈ l := by
  induction l with
  | nil => cases h
  | cons e rest ih =>
    obtain ⟨k', v⟩ := e
    simp only [lastHeld] at h
    cases hr : lastHeld k rest with
    | some w' =>
      rw [hr] at h
      simp only [Option.some.injEq] at h
      subst h
      exact List.mem_cons_of_mem _ (ih hr)
    | none =>
      rw [hr] at h
      by_cases hk : k' = k
      · simp only [hk, if_true, Option.some.injEq] at h
        subst h
        subst hk
        exact List.mem_cons_self _ _
      · simp [hk] at h

mutual
theorem visitedLeaves_str (obj r : Mapping) (p t : String) (e : String × Value)
    (he : e ∈ visitedLeaves (generatePlaceholders obj r p t).1) : ∃ s, e.2 = .str s :=
  match obj, he with
  | [], he => by simp [generatePlaceholders, visitedLeaves] at he
  | (k, v) :: rest, he => by
    simp only [generatePlaceholders, visitedLeaves, List.mem_append] at he
    rcases he with h | h
    · exact heldLeaves_str v k r p t e h
    · exact visitedLeaves_str rest _ p t e h
termination_by structural obj
theorem heldLeaves_str (v : Value) (k : String) (r : Mapping) (p t : String)
    (e : String × Value) (he : e ∈ heldLeaves (walkValue v k r p t).1 k) : ∃ s, e.2 = .str s :=
  match v, he with
  | .map m, he => by
    simp only [walkValue, heldLeaves] at he
    exact visitedLeaves_str m r _ t e he
  | .seq xs, he => by
    simp only [walkValue, heldLeaves] at he
    exact sliceLeaves_str xs r _ t e he
  | .null, he => by
    simp only [walkValue, heldLeaves, List.mem_singleton] at he
    exact ⟨_, by rw [he]⟩
  | .bool _, he => by
    simp only [walkValue, heldLeaves, List.mem_singleton] at he
    exact ⟨_, by rw [he]⟩
  | .num _, he => by
    simp only [walkValue, heldLeaves, List.mem_singleton] at he
    exact ⟨_, by rw [he]⟩
  | .str _, he => by
    simp only [walkValue, heldLeaves, List.mem_singleton] at he
    exact ⟨_, by rw [he]⟩
termination_by structural v
theorem sliceLeaves_str (xs : List Value) (r : Mapping) (p t : String)
    (e : String × Value) (he : e ∈ sliceLeaves (walkSlice xs r p t).1) : ∃ s, e.2 = .str s :=
  match xs, he with
  | [], he => by simp [walkSlice, sliceLeaves] at he
  | .map m :: rest, he => by
    simp only [walkSlice, sliceLeaves, List.mem_append] at he
    rcases he with h | h
    · exact visitedLeaves_str m r p t e h
    · exact sliceLeaves_str rest _ p t e h
  | .seq _ :: rest, he => by
    simp only [walkSlice, sliceLeaves, List.nil_append] at he
    exact sliceLeaves_str rest r p t e he
  | .null :: rest, he => by
    simp only [walkSlice, sliceLeaves, List.nil_append] at he
    exact sliceLeaves_str rest r p t e he
  | .bool _ :: rest, he => by
    simp only [walkSlice, sliceLeaves, List.nil_append] at he
    exact sliceLeaves_str rest r p t e he
  | .num _ :: rest, he => by
    simp only [walkSlice, sliceLeaves, List.nil_append] at he
    exact sliceLeaves_str rest r p t e he
  | .str _ :: rest, he => by
    simp only [walkSlice, sliceLeaves, List.nil_append] at he
    exact sliceLeaves_str rest r p t e he
termination_by structural xs
end

/-- C16: after `generatePlaceholders` the accumulator is the initial accumulator into which
every visited leaf of the walked tree has been written under its key name, in visiting order.
A key name borne by a visited leaf maps to the placeholder string that the tree holds at the
last visited leaf of that name; under any other key the accumulator holds what it held. -/
theorem C16_accumulator_last_write_wins (obj r : Mapping) (p rk : String) :
    (generatePlaceholders obj r p rk).2
      = (visitedLeaves (generatePlaceholders obj r p rk).1).foldl recordLeaf r
    ∧ (visitedLeaves (generatePlaceholders obj r p rk).1).map Prod.fst
      = (visitedLeaves obj).map Prod.fst
    ∧ (∀ k, k ∈ (visitedLeaves obj).map Prod.fst →
        ∃ s, lastHeld k (visitedLeaves (generatePlaceholders obj r p rk).1) = some (.str s)
          ∧ mapGet (generatePlaceholders obj r p rk).2 k = some (.str s))
    ∧ (∀ k, k ∉ (visitedLeaves obj).map Prod.fst →
        mapGet (generatePlaceholders obj r p rk).2 k = mapGet r k) := by
  have h1 := generatePlaceholders_snd obj r p rk
  have h2 := visitedLeaves_names obj r p rk
  refine ⟨h1, h2, ?_, ?_⟩
  · intro k hk
    rw [← h2] at hk
    obtain ⟨w, hw⟩ := lastHeld_isSome k _ hk
    obtain ⟨s, hs⟩ := visitedLeaves_str obj r p rk (k, w) (lastHeld_mem k _ w hw)
    simp only at hs
    subst hs
    refine ⟨s, hw, ?_⟩
    rw [h1, mapGet_foldl_recordLeaf, hw]
  · intro k hk
    rw [← h2] at hk
    rw [h1, mapGet_foldl_recordLeaf, lastHeld_eq_none k _ hk]

theorem C16_accumulator_last_write_wins_witness :
    ("name" ∈ (visitedLeaves [("name", .num 1), ("meta", .map [("name", .num 2)]),
          ("tags", .seq [.map [("name", .num 3)], .str "x"])]).map Prod.fst
      ∧ ∃ s, lastHeld "name" (visitedLeaves (generatePlaceholders
            [("name", .num 1), ("meta", .map [("name", .num 2)]),
              ("tags", .seq [.map [("name", .num 3)], .str "x"])]
            [("name", .str "old"), ("other", .str "kept")] "" "deployment").1) = some (.str s)
          ∧ mapGet (generatePlaceholders
            [("name", .num 1), ("meta", .map [("name", .num 2)]),
              ("tags", .seq [.map [("name", .num 3)], .str "x"])]
            [("name", .str "old"), ("other", .str "kept")] "" "deployment").2 "name"
            = some (.str s))
    ∧ ("other" ∉ (visitedLeaves [("name", .num 1), ("meta", .map [("name", .num 2)]),
          ("tags", .seq [.map [("name", .num 3)], .str "x"])]).map Prod.fst
      ∧ mapGet (generatePlaceholders
          [("name", .num 1), ("meta", .map [("name", .num 2)]),
            ("tags", .seq [.map [("name", .num 3)], .str "x"])]
          [("name", .str "old"), ("other", .str "kept")] "" "deployment").2 "other"
        = mapGet [("name", .str "old"), ("other", .str "kept")] "other")
    ∧ (generatePlaceholders
          [("name", .num 1), ("meta", .map [("name", .num 2)]),
            ("tags", .seq [.map [("name", .num 3)], .str "x"])]
          [("name", .str "old"), ("other", .str "kept")] "" "deployment").2
      = [("name", .str "\x7b\x7b.Values.deployment.tags.name\x7d\x7d"),
          ("other", .str "kept")] :=
  have hin : "name" ∈ (visitedLeaves [("name", .num 1), ("meta", .map [("name", .num 2)]),
      ("tags", .seq [.map [("name", .num 3)], .str "x"])]).map Prod.fst := by
    simp [visitedLeaves, heldLeaves, sliceLeaves]
  have hout : "other" ∉ (visitedLeaves [("name", .num 1), ("meta", .map [("name", .num 2)]),
      ("tags", .seq [.map [("name", .num 3)], .str "x"])]).map Prod.fst := by
    simp [visitedLeaves, heldLeaves, sliceLeaves]
  ⟨⟨hin, (C16_accumulator_last_write_wins _ _ "" "deployment").2.2.1 "name" hin⟩,
    ⟨hout, (C16_accumulator_last_write_wins _ _ "" "deployment").2.2.2 "other" hout⟩, rfl⟩

/-! ## Idempotence -/

mutual
theorem generatePlaceholders_idem (obj a b : Mapping) (p t : String) :
    (generatePlaceholders (generatePlaceholders obj a p t).1 b p t).1
      = (generatePlaceholders obj a p t).1 :=
  match obj with
  | [] => by simp [generatePlaceholders]
  | (k, v) :: rest => by
    simp only [generatePlaceholders]
    rw [walkValue_idem v k a b p t, generatePlaceholders_idem rest _ _ p t]
termination_by structural obj
theorem walkValue_idem (v : Value) (k : String) (a b : Mapping) (p t : String) :
    (walkValue (walkValue v k a p t).1 k b p t).1 = (walkValue v k a p t).1 :=
  match v with
  | .map m => by
    simp only [walkValue]
    rw [generatePlaceholders_idem m a b _ t]
  | .seq xs => by
    simp only [walkValue]
    rw [walkSlice_idem xs a b _ t]
  | .null => by simp [walkValue]
  | .bool _ => by simp [walkValue]
  | .num _ => by simp [walkValue]
  | .str _ => by simp [walkValue]
termination_by structural v
theorem walkSlice_idem (xs : List Value) (a b : Mapping) (p t : String) :
    (walkSlice (walkSlice xs a p t).1 b p t).1 = (walkSlice xs a p t).1 :=
  match xs with
  | [] => by simp [walkSlice]
  | .map m :: rest => by
    simp only [walkSlice]
    rw [generatePlaceholders_idem m a b p t, walkSlice_idem rest _ _ p t]
  | .seq _ :: rest => by
    simp only [walkSlice]
    rw [walkSlice_idem rest a b p t]
  | .null :: rest => by
    simp only [walkSlice]
    rw [walkSlice_idem rest a b p t]
  | .bool _ :: rest => by
    simp only [walkSlice]
    rw [walkSlice_idem rest a b p t]
  | .num _ :: rest => by
    simp only [walkSlice]
    rw [walkSlice_idem rest a b p t]
  | .str _ :: rest => by
    simp only [walkSlice]
    rw [walkSlice_idem rest a b p t]
termination_by structural xs
end

theorem generatePlaceholders_mapSet_leaf (X acc : Mapping) (p t k s : String) :
    (generatePlaceholders (mapSet X k (.str s)) acc p t).1
      = mapSet (generatePlaceholders X acc p t).1 k
          (.str ("\x7b\x7b.Values." ++ t ++ "." ++ p ++ k ++ "\x7d\x7d")) := by
  induction X generalizing acc with
  | nil => simp [mapSet, generatePlaceholders, walkValue]
  | cons e rest ih =>
    obtain ⟨k', v⟩ := e
    by_cases h : k' = k
    · subst h
      simp only [mapSet, if_true, generatePlaceholders, walkValue]
      rw [generatePlaceholders_fst_acc rest _ (walkValue v k' acc p t).2 p t]
    · simp only [mapSet, h, if_false, generatePlaceholders]
      rw [ih]

theorem mapSet_mapSet_same (X : Mapping) (k : String) (v v' : Value) :
    mapSet (mapSet X k v) k v' = mapSet X k v' := by
  induction X with
  | nil => simp [mapSet]
  | cons e rest ih =>
    obtain ⟨k', w⟩ := e
    by_cases h : k' = k
    · simp [mapSet, h]
    · simp [mapSet, h, ih]

theorem mapSet_again_after_other (X : Mapping) (a b : String) (u w u' : Value) (hab : a ≠ b) :
    mapSet (mapSet (mapSet X a u) b w) a u' = mapSet (mapSet X a u') b w := by
  induction X with
  | nil => simp [mapSet, hab]
  | cons e rest ih =>
    obtain ⟨k', x⟩ := e
    by_cases ha : k' = a
    · subst ha
      simp [mapSet, hab]
    · by_cases hb : k' = b
      · subst hb
        simp [mapSet, ha, mapSet_mapSet_same]
      · simp [mapSet, ha, hb, ih]

theorem emittedManifest_idem (kubeObj : KubeComponent) (m : Mapping) :
    emittedManifest kubeObj (emittedManifest kubeObj m) = emittedManifest kubeObj m := by
  unfold emittedManifest
  rw [generatePlaceholders_mapSet_leaf, generatePlaceholders_mapSet_leaf,
    generatePlaceholders_idem, mapSet_again_after_other _ "kind" "apiVersion" _ _ _ (by decide),
    mapSet_again_after_other _ "apiVersion" "kind" _ _ _ (by decide)]

/-- C17: walking a walked tree again with the same path and resource key returns the same
tree, whatever the accumulators; and the manifest built from a built manifest with the same
component is that manifest. -/
theorem C17_walk_is_idempotent :
    (∀ (obj acc acc' : Mapping) (p rk : String),
      (generatePlaceholders (generatePlaceholders obj acc p rk).1 acc' p rk).1
        = (generatePlaceholders obj acc p rk).1)
    ∧ (∀ (componentType apiVersion kind key : String) (m acc acc' : Mapping),
      ∃ g a1 a2,
        generateHelmChart ⟨componentType, apiVersion, kind, .map m, key⟩ acc
          = ([.create (templatesFolderPath ++ "/" ++ componentType ++ ".yaml"),
              .write (templatesFolderPath ++ "/" ++ componentType ++ ".yaml") g],
            .returned (g, a1))
        ∧ generateHelmChart ⟨componentType, apiVersion, kind, .map g, key⟩ acc'
          = ([.create (templatesFolderPath ++ "/" ++ componentType ++ ".yaml"),
              .write (templatesFolderPath ++ "/" ++ componentType ++ ".yaml") g],
            .returned (g, a2)))
    ∧ (generateHelmChart ⟨"deployment", "apps/v1", "Deployment",
          .map [("replicas", .str "\x7b\x7b.Values.deployment.replicas\x7d\x7d"),
            ("apiVersion", .str "apps/v1"), ("kind", .str "Deployment")], "deployment"⟩ []).1
      = (generateHelmChart ⟨"deployment", "apps/v1", "Deployment",
          .map [("replicas", .num 2)], "deployment"⟩ []).1 := by
  refine ⟨?_, ?_, rfl⟩
  · intro obj acc acc' p rk
    exact generatePlaceholders_idem obj acc acc' p rk
  · intro componentType apiVersion kind key m acc acc'
    refine ⟨emittedManifest ⟨componentType, apiVersion, kind, .map m, key⟩ m,
      (generatePlaceholders m acc "" key).2,
      (generatePlaceholders (emittedManifest ⟨componentType, apiVersion, kind, .map m, key⟩ m)
        acc' "" key).2,
      generateHelmChart_map ⟨componentType, apiVersion, kind, .map m, key⟩ acc m rfl, ?_⟩
    have h := generateHelmChart_map
      ⟨componentType, apiVersion, kind,
        .map (emittedManifest ⟨componentType, apiVersion, kind, .map m, key⟩ m), key⟩ acc'
      (emittedManifest ⟨componentType, apiVersion, kind, .map m, key⟩ m) rfl
    have hi := emittedManifest_idem ⟨componentType, apiVersion, kind, .map m, key⟩ m
    have he : emittedManifest
        ⟨componentType, apiVersion, kind,
          .map (emittedManifest ⟨componentType, apiVersion, kind, .map m, key⟩ m), key⟩
        (emittedManifest ⟨componentType, apiVersion, kind, .map m, key⟩ m)
        = emittedManifest ⟨componentType, apiVersion, kind, .map m, key⟩ m := hi
    rw [he] at h
    exact h

/-! ## Frame of `configureHelmChart`, and where the pipeline can fail -/

theorem configureHelmChart_completed (configs : Mapping) (h : resourcesAreMaps configs) :
    (configureHelmChart configs).2 = .returned (configs.map templatedEntry) := by
  obtain ⟨acc', h'⟩ := configureEntries_completed configs [] h
  simp [configureHelmChart, h']

theorem configureHelmChart_aborted (configs : Mapping)
    (h : ∃ key v kubeObj, (key, v) ∈ configs ∧ classify key v = some kubeObj
      ∧ ∀ m, v ≠ .map m) :
    (configureHelmChart configs).2 = .panicked := by
  have := configureEntries_aborted configs [] h
  unfold configureHelmChart
  rcases hx : configureEntries configs [] with ⟨ev, (⟨es', acc'⟩ | _)⟩
  · rw [hx] at this
    simp at this
  · rfl

theorem resourcesAreMaps_or_not (configs : Mapping) :
    resourcesAreMaps configs
    ∨ ∃ key v kubeObj, (key, v) ∈ configs ∧ classify key v = some kubeObj ∧ ∀ m, v ≠ .map m := by
  by_cases h : resourcesAreMaps configs
  · exact Or.inl h
  · right
    unfold resourcesAreMaps at h
    push_neg at h
    exact h

theorem entryEvents_of_not_classified (e : String × Value) (h : classify e.1 e.2 = none) :
    entryEvents e = [] := by
  simp [entryEvents, h]

/-- C18: when `configureHelmChart` returns, the configuration has the same top-level keys in
the same positions and every entry whose key is not recognized is what it was; it returns
whenever every recognized key holds a map, and with no recognized key it creates the
templates folder and leaves the configuration unchanged. -/
theorem C18_unrecognized_entries_untouched :
    (∀ (configs es : Mapping), (configureHelmChart configs).2 = .returned es →
      es.map Prod.fst = configs.map Prod.fst
      ∧ ∀ (i : Nat) (key : String) (v : Value), configs[i]? = some (key, v) →
          classify key v = none → es[i]? = some (key, v))
    ∧ (∀ configs : Mapping,
      (∀ key v kubeObj, (key, v) ∈ configs → classify key v = some kubeObj →
        ∃ m, v = .map m) →
      ∃ es, (configureHelmChart configs).2 = .returned es)
    ∧ (∀ configs : Mapping, (∀ key v, (key, v) ∈ configs → classify key v = none) →
      configureHelmChart configs = ([.mkdirAll "helm/templates"], .returned configs)) := by
  refine ⟨?_, ?_, ?_⟩
  · intro configs es hes
    rcases resourcesAreMaps_or_not configs with hm | hp
    · rw [configureHelmChart_completed configs hm] at hes
      simp only [Outcome.returned.injEq] at hes
      subst hes
      refine ⟨?_, ?_⟩
      · rw [List.map_map]
        exact List.map_congr_left (fun e _ => templatedEntry_fst e)
      · intro i key v hi hc
        rw [List.getElem?_map, hi]
        simp [templatedEntry_of_not_classified key v hc]
    · rw [configureHelmChart_aborted configs hp] at hes
      cases hes
  · intro configs hm
    exact ⟨_, configureHelmChart_completed configs hm⟩
  · intro configs hn
    have hm : resourcesAreMaps configs := by
      intro key v kubeObj hmem hc
      rw [hn key v hmem] at hc
      cases hc
    obtain ⟨acc', hrun⟩ := configureEntries_completed configs [] hm
    have h1 : configs.flatMap entryEvents = [] := by
      rw [List.flatMap_eq_nil_iff]
      intro e he
      exact entryEvents_of_not_classified e (hn e.1 e.2 he)
    have h2 : configs.map templatedEntry = configs := by
      have : ∀ e ∈ configs, templatedEntry e = id e := by
        intro e he
        obtain ⟨key, v⟩ := e
        exact templatedEntry_of_not_classified key v (hn key v he)
      rw [List.map_congr_left this, List.map_id]
    unfold configureHelmChart
    rw [hrun, h1, h2]
    rfl

theorem C18_unrecognized_entries_untouched_witness :
    ((configureHelmChart [("owner", .str "me"), ("service", .map [("port", .num 80)])]).2
        = .returned [("owner", .str "me"),
            ("service", .map [("port", .str "\x7b\x7b.Values.service.port\x7d\x7d"),
              ("apiVersion", .str "v1"), ("kind", .str "Service")])]
      ∧ ([("owner", Value.str "me"),
            ("service", .map [("port", .str "\x7b\x7b.Values.service.port\x7d\x7d"),
              ("apiVersion", .str "v1"), ("kind", .str "Service")])].map Prod.fst
          = [("owner", Value.str "me"), ("service", .map [("port", .num 80)])].map Prod.fst
        ∧ ∀ (i : Nat) (key : String) (v : Value),
          [("owner", Value.str "me"), ("service", .map [("port", .num 80)])][i]?
            = some (key, v) →
          classify key v = none →
          [("owner", Value.str "me"),
            ("service", .map [("port", .str "\x7b\x7b.Values.service.port\x7d\x7d"),
              ("apiVersion", .str "v1"), ("kind", .str "Service")])][i]? = some (key, v)))
    ∧ ((∀ key v, (key, v) ∈ [("owner", Value.str "me"), ("replicas", .num 2)] →
        classify key v = none)
      ∧ configureHelmChart [("owner", .str "me"), ("replicas", .num 2)]
        = ([.mkdirAll "helm/templates"],
            .returned [("owner", .str "me"), ("replicas", .num 2)])) :=
  have hn : ∀ key v, (key, v) ∈ [("owner", Value.str "me"), ("replicas", .num 2)] →
      classify key v = none := by
    intro key v hm
    simp only [List.mem_cons, Prod.mk.injEq, List.not_mem_nil, or_false] at hm
    rcases hm with ⟨rfl, rfl⟩ | ⟨rfl, rfl⟩ <;> rfl
  ⟨⟨rfl, C18_unrecognized_entries_untouched.1 _ _ rfl⟩,
    ⟨hn, C18_unrecognized_entries_untouched.2.2 _ hn⟩⟩

/-- C19: `generatePlaceholders` is a total function: on every finite map it returns a tree
(of the shape of its input) and an accumulator, with no failing outcome.  The type assertion of
`generateHelmChart` is the one place where the pipeline panics: `generateHelmChart` panics
exactly when the value of the component is not a map, and the handler panics exactly when
some recognized top-level key holds a value that is not a map. -/
theorem C19_walk_is_total_and_only_the_resource_assertion_fails :
    (∀ (obj acc : Mapping) (p rk : String),
      ∃ tree acc', generatePlaceholders obj acc p rk = (tree, acc') ∧ sameShapeMap obj tree)
    ∧ (∀ (kubeObj : KubeComponent) (acc : Mapping),
      (generateHelmChart kubeObj acc).2 = .panicked ↔ ∀ m, kubeObj.KubeObjectValue ≠ .map m)
    ∧ (∀ configs : Mapping,
      (GenerateConfigs configs).2 = .panicked
        ↔ ∃ key v kubeObj, (key, v) ∈ configs ∧ classify key v = some kubeObj
          ∧ ∀ m, v ≠ .map m)
    ∧ (generatePlaceholders
        [("n", .null), ("b", .bool true), ("i", .num 7), ("s", .str "x"), ("e", .map []),
          ("l", .seq []), ("ll", .seq [.seq [.seq [.map [("deep", .num 1)]]], .null]),
          ("m", .map [("m", .map [("m", .seq [.map [("k", .seq [.num 1])], .map []])])])]
        [] "" "ingress").1
      = [("n", .str "\x7b\x7b.Values.ingress.n\x7d\x7d"),
          ("b", .str "\x7b\x7b.Values.ingress.b\x7d\x7d"),
          ("i", .str "\x7b\x7b.Values.ingress.i\x7d\x7d"),
          ("s", .str "\x7b\x7b.Values.ingress.s\x7d\x7d"), ("e", .map []), ("l", .seq []),
          ("ll", .seq [.seq [.seq [.map [("deep", .num 1)]]], .null]),
          ("m", .map [("m", .map [("m", .seq [.map [("k", .seq [.num 1])], .map []])])])] := by
  refine ⟨?_, ?_, ?_, rfl⟩
  · intro obj acc p rk
    exact ⟨_, _, rfl, sameShapeMap_walk obj acc p rk⟩
  · intro kubeObj acc
    constructor
    · intro hp m hm
      rw [generateHelmChart_map kubeObj acc m hm] at hp
      cases hp
    · intro hn
      rw [generateHelmChart_not_map kubeObj acc hn]
  · intro configs
    constructor
    · intro hp
      rcases resourcesAreMaps_or_not configs with hm | hx
      · rw [GenerateConfigs_completed configs hm] at hp
        cases hp
      · exact hx
    · intro hx
      have := configureHelmChart_aborted configs hx
      unfold GenerateConfigs
      rcases hc : configureHelmChart configs with ⟨ev, (es' | _)⟩
      · rw [hc] at this
        cases this
      · rfl

theorem C19_walk_is_total_and_only_the_resource_assertion_fails_witness :
    (∃ key v kubeObj, (key, v) ∈ [("owner", Value.str "me"), ("Service", .null)]
        ∧ classify key v = some kubeObj ∧ ∀ m, v ≠ .map m)
    ∧ (GenerateConfigs [("owner", .str "me"), ("Service", .null)]).2 = .panicked :=
  have hx : ∃ key v kubeObj, (key, v) ∈ [("owner", Value.str "me"), ("Service", .null)]
      ∧ classify key v = some kubeObj ∧ ∀ m, v ≠ .map m :=
    ⟨"Service", .null, ⟨"service", "v1", "Service", .null, "Service"⟩, by simp, rfl,
      by intro m h; cases h⟩
  ⟨hx, (C19_walk_is_total_and_only_the_resource_assertion_fails.2.2.1 _).2 hx⟩

end ConfigGenerator
